import Mathlib

/-!
Verification development for the Byte-Bistro transport core.

The definitions below are a shallow embedding of the C sources:
`src/bb_checksum.c`, `src/bb_wire.c`, `src/bb_channel.c`, `src/bb_gbn.c`,
`src/bb_sr.c`.  Machine integers are modelled as `Nat` with explicit
`% 2^w` at the points where the C code performs modular (wrap-around)
arithmetic; byte buffers are `List Nat` whose elements are `< 256` on every
real execution (stated as a hypothesis where a proof needs it); fallible
functions return `Option`; calls into the environment (the monotonic clock
`bb_now_ns`, the socket layer) are modelled by an explicit oracle record
`Env` that is threaded through the state-passing translation of each C
function.  Loops whose termination depends on run-time data are translated
with an explicit iteration bound (`fuel`); exhausting the bound returns the
in-progress state, so every state the C loop passes through is the result
of the translation for some bound.
-/

namespace ByteBistro

/-- 2^32, the modulus of the 32-bit sequence-number space. -/
def U32 : Nat := 4294967296

/-- 2^16, the modulus of the 16-bit length field. -/
def U16 : Nat := 65536

/-- Wrap-around difference `(uint32_t)(a - b)` for `a b < 2^32`. -/
def udiff (a b : Nat) : Nat := (a + U32 - b) % U32

/-- Signed reinterpretation of a 32-bit value, `(int32_t)u`. -/
def toSigned (u : Nat) : Int :=
  if u < 2147483648 then (u : Int) else (u : Int) - (U32 : Int)

/-- Signed comparison of sequence numbers, `seq_cmp` in `bb_gbn.c` and
`bb_sr.c`: the signed interpretation of the 32-bit difference `a - b`. -/
def seq_cmp (a b : Nat) : Int := toSigned (udiff a b)

/-- Successor in sequence space, `bb_next_seq` in `bb_gbn.c`. -/
def bb_next_seq (x : Nat) : Nat := (x + 1) % U32

/-- Little-endian bytes of a 16-bit value. -/
def le16 (x : Nat) : List Nat := [x % 256, x / 256 % 256]

/-- Little-endian bytes of a 32-bit value. -/
def le32 (x : Nat) : List Nat :=
  [x % 256, x / 256 % 256, x / 65536 % 256, x / 16777216 % 256]

/-- Value of two little-endian bytes, truncated to 16 bits as a `uint16_t`
read does. -/
def rd16 (b0 b1 : Nat) : Nat := (b0 + 256 * b1) % U16

/-- Value of four little-endian bytes, truncated to 32 bits as a `uint32_t`
read does. -/
def rd32 (b0 b1 b2 b3 : Nat) : Nat :=
  (b0 + 256 * b1 + 65536 * b2 + 16777216 * b3) % U32

/-! ## Checksums (`src/bb_checksum.c`) -/

/-- One deferred-modulus reduction step of Fletcher-32:
`sum = (sum & 0xffff) + (sum >> 16)`. -/
def reduce16 (x : Nat) : Nat := x % 65536 + x / 65536

/-- Inner accumulation step of `bb_fletcher32`:
`sum1 += byte; sum2 += sum1`. -/
def fletcherStep (p : Nat × Nat) (b : Nat) : Nat × Nat :=
  (p.1 + b, p.2 + p.1 + b)

/-- The block loop of `bb_fletcher32`: process up to 360 bytes, then reduce
both sums once, until the data is exhausted.  The first argument is a
structural bound on the number of blocks (each block consumes at least one
byte, so the length of the data is always enough); it exists only to make
the recursion structural so that the function evaluates by reduction. -/
def f32loop : Nat → Nat → Nat → List Nat → Nat × Nat
  | _, sum1, sum2, [] => (sum1, sum2)
  | 0, sum1, sum2, _ => (sum1, sum2)
  | fuel + 1, sum1, sum2, b :: rest =>
    let s := (List.take 360 (b :: rest)).foldl fletcherStep (sum1, sum2)
    f32loop fuel (reduce16 s.1) (reduce16 s.2) (List.drop 360 (b :: rest))

/-- `bb_fletcher32` from `src/bb_checksum.c`: byte-wise Fletcher with both
sums seeded at `0xffff`, deferred modulus every 360 bytes, a final
reduction of each sum, and the result `(sum2 << 16) | sum1` in `uint32_t`
arithmetic. -/
def bb_fletcher32 (data : List Nat) : Nat :=
  let s := f32loop data.length 65535 65535 data
  let s1 := reduce16 s.1
  let s2 := reduce16 s.2
  ((s2 <<< 16) % U32) ||| s1

/-- The CRC32C (Castagnoli) polynomial in reflected form, the constant the
SSE4.2 `crc32` instruction implements. -/
def CRCPOLY : Nat := 0x82F63B78

/-- One bit-round of the reflected CRC32C step. -/
def crcRound (x : Nat) : Nat :=
  if x % 2 = 1 then (x / 2) ^^^ CRCPOLY else x / 2

/-- Eight bit-rounds, the per-byte core of the `crc32` byte instruction. -/
def crcRounds8 (x : Nat) : Nat :=
  crcRound (crcRound (crcRound (crcRound (crcRound (crcRound (crcRound (crcRound x)))))))

/-- Semantics of `__builtin_ia32_crc32qi(crc, b)` for a byte `b < 256`:
xor the byte into the crc and run eight reflected polynomial rounds. -/
def crcByteStep (crc b : Nat) : Nat := crcRounds8 (crc ^^^ b)

/-- `bb_crc32c_hw` from `src/bb_checksum.c` on a host with SSE4.2: seed
`0xffffffff`, accumulate each byte with the `crc32` byte instruction, and
finalize with `~crc`. -/
def bb_crc32c_hw (data : List Nat) : Nat :=
  (data.foldl crcByteStep 0xffffffff) ^^^ 0xffffffff

/-- The checksum actually applied by the codec: hardware CRC32C when the
runtime probe `bb_crc32c_hw_available()` succeeds, Fletcher-32 otherwise.
The probe result is the boolean parameter `hw`. -/
def checksum (hw : Bool) (data : List Nat) : Nat :=
  if hw then bb_crc32c_hw data else bb_fletcher32 data

/-! ## Wire codec (`src/bb_wire.c`, `include/bb_wire.h`) -/

/-- Frame magic `BB_MAGIC`. -/
def BB_MAGIC : Nat := 0xB17E

/-- `BB_FLAG_ACK`. -/
def BB_FLAG_ACK : Nat := 0x01

/-- `BB_FLAG_DATA`. -/
def BB_FLAG_DATA : Nat := 0x02

/-- Size in bytes of the packed `bb_hdr_t` struct
(`uint16 + uint8 + uint8 + uint32 + uint32 + uint16 + uint32` under
`#pragma pack(1)`). -/
def HDR_SIZE : Nat := 18

/-- The packed on-wire header `bb_hdr_t`. -/
structure BBHdr where
  magic : Nat
  flags : Nat
  hdrlen : Nat
  seq : Nat
  ack : Nat
  len : Nat
  crc32c : Nat
deriving Repr, DecidableEq

/-- The byte image produced by `memcpy`ing a packed `bb_hdr_t` on a
little-endian host; each field is truncated to its storage width. -/
def serializeHdr (h : BBHdr) : List Nat :=
  le16 h.magic ++ [h.flags % 256, h.hdrlen % 256] ++ le32 h.seq ++
    le32 h.ack ++ le16 h.len ++ le32 h.crc32c

/-- `bb_wire_pack`: fail when the buffer cannot hold header plus payload,
otherwise emit the header with `crc` zeroed, compute the checksum over the
whole span, and store it in the crc field.  The C function returns the
byte count `sizeof(bb_hdr_t) + len` or `0`; the model returns the written
span or `none`. -/
def bb_wire_pack (cap : Nat) (hw : Bool) (flags seq ack : Nat)
    (payload : List Nat) : Option (List Nat) :=
  if cap < HDR_SIZE + payload.length then none
  else
    let base := serializeHdr
      ⟨BB_MAGIC, flags, 10, seq, ack, payload.length, 0⟩ ++ payload
    let crc := checksum hw base
    some (serializeHdr
      ⟨BB_MAGIC, flags, 10, seq, ack, payload.length, crc⟩ ++ payload)

/-- The received span with the four crc bytes (offsets 14..17) replaced by
zero, the span `bb_wire_parse` recomputes the checksum over. -/
def zeroCrcSpan (buf : List Nat) : List Nat :=
  buf.take 14 ++ [0, 0, 0, 0] ++ buf.drop 18

/-- The header `bb_wire_parse` reads from the first 18 bytes of the span
(little-endian, each field truncated to its storage width). -/
def readHdr (buf : List Nat) : BBHdr :=
  { magic := rd16 (buf.getD 0 0) (buf.getD 1 0)
    flags := buf.getD 2 0 % 256
    hdrlen := buf.getD 3 0 % 256
    seq := rd32 (buf.getD 4 0) (buf.getD 5 0) (buf.getD 6 0) (buf.getD 7 0)
    ack := rd32 (buf.getD 8 0) (buf.getD 9 0) (buf.getD 10 0) (buf.getD 11 0)
    len := rd16 (buf.getD 12 0) (buf.getD 13 0)
    crc32c := rd32 (buf.getD 14 0) (buf.getD 15 0) (buf.getD 16 0) (buf.getD 17 0) }

/-- `bb_wire_parse`: reject spans shorter than a header, spans whose magic
differs, spans whose stored crc differs from the checksum recomputed over
the span with the crc bytes zeroed, and spans shorter than
`sizeof(bb_hdr_t) + len`; on success expose the header and the payload
slice starting at offset 18. -/
def bb_wire_parse (hw : Bool) (buf : List Nat) : Option (BBHdr × List Nat) :=
  if buf.length < HDR_SIZE then none
  else
    let h := readHdr buf
    if h.magic ≠ BB_MAGIC then none
    else
      let calcv := checksum hw (zeroCrcSpan buf)
      if h.crc32c ≠ calcv then none
      else if buf.length < HDR_SIZE + h.len then none
      else some (h, (buf.drop HDR_SIZE).take h.len)

/-! ## Checksum lemmas

Bounds of the Fletcher sums, the mod-65535 characterization of the low
half of the Fletcher result, and injectivity of the CRC32C byte step; both
are what single-bit-error detection rests on. -/

theorem fletcher_foldl_fst (l : List Nat) :
    ∀ s1 s2 : Nat, (l.foldl fletcherStep (s1, s2)).1 = s1 + l.sum := by
  induction l with
  | nil => intro s1 s2; simp
  | cons b rest ih =>
    intro s1 s2
    simp only [List.foldl_cons, List.sum_cons, fletcherStep]
    rw [ih]
    omega

theorem f32loop_fst_le :
    ∀ (fuel : Nat) (data : List Nat),
      (∀ b ∈ data, b < 256) → ∀ s1 s2 : Nat, s1 ≤ 65537 →
      (f32loop fuel s1 s2 data).1 ≤ 65537 := by
  intro fuel
  induction fuel with
  | zero =>
    intro data _ s1 s2 hs1
    match data with
    | [] => exact hs1
    | b :: rest => exact hs1
  | succ n ih =>
    intro data hb s1 s2 hs1
    match data with
    | [] => exact hs1
    | b :: rest =>
      show (f32loop n _ _ _).1 ≤ 65537
      have hblock : ∀ x ∈ List.take 360 (b :: rest), x ≤ 255 := by
        intro x hx
        exact Nat.le_of_lt_succ (hb x (List.mem_of_mem_take hx))
      have hsum : (List.take 360 (b :: rest)).sum ≤ 360 * 255 := by
        have h1 := List.sum_le_card_nsmul (List.take 360 (b :: rest)) 255 hblock
        have h2 : (List.take 360 (b :: rest)).length ≤ 360 := by
          simp [List.length_take]
        simp only [smul_eq_mul] at h1
        calc (List.take 360 (b :: rest)).sum
            ≤ (List.take 360 (b :: rest)).length * 255 := h1
          _ ≤ 360 * 255 := Nat.mul_le_mul_right 255 h2
      have hfst : ((List.take 360 (b :: rest)).foldl fletcherStep (s1, s2)).1 =
          s1 + (List.take 360 (b :: rest)).sum := fletcher_foldl_fst _ s1 s2
      apply ih
      · intro x hx
        exact hb x (List.mem_of_mem_drop hx)
      · rw [hfst]
        simp only [reduce16]
        omega

theorem f32loop_fst_modeq :
    ∀ (fuel : Nat) (data : List Nat), data.length ≤ fuel →
      ∀ s1 s2 : Nat, (f32loop fuel s1 s2 data).1 % 65535 = (s1 + data.sum) % 65535 := by
  intro fuel
  induction fuel with
  | zero =>
    intro data hlen s1 s2
    have hd : data = [] := List.length_eq_zero.mp (Nat.le_zero.mp hlen)
    subst hd
    simp [f32loop]
  | succ n ih =>
    intro data hlen s1 s2
    match data with
    | [] => simp [f32loop]
    | b :: rest =>
      show (f32loop n _ _ _).1 % 65535 = _
      have hfst : ((List.take 360 (b :: rest)).foldl fletcherStep (s1, s2)).1 =
          s1 + (List.take 360 (b :: rest)).sum := fletcher_foldl_fst _ s1 s2
      have hrec := ih (List.drop 360 (b :: rest)) (by
        simp only [List.length_drop]
        have : (b :: rest).length = rest.length + 1 := by simp
        simp only [List.length_cons] at hlen
        omega) (reduce16 ((List.take 360 (b :: rest)).foldl fletcherStep (s1, s2)).1)
        (reduce16 ((List.take 360 (b :: rest)).foldl fletcherStep (s1, s2)).2)
      rw [hrec, hfst]
      have hsplit : (List.take 360 (b :: rest)).sum + (List.drop 360 (b :: rest)).sum =
          (b :: rest).sum := List.sum_take_add_sum_drop _ _
      simp only [reduce16]
      omega

theorem fletcher32_split (data : List Nat) (h : ∀ b ∈ data, b < 256) :
    ∃ s1 : Nat, bb_fletcher32 data % 65536 = s1 ∧ s1 ≤ 65535 ∧
      s1 % 65535 = data.sum % 65535 := by
  refine ⟨reduce16 (f32loop data.length 65535 65535 data).1, ?_, ?_, ?_⟩
  · have hle : (f32loop data.length 65535 65535 data).1 ≤ 65537 :=
      f32loop_fst_le data.length data h 65535 65535 (by omega)
    have hlow : reduce16 (f32loop data.length 65535 65535 data).1 < 65536 := by
      simp only [reduce16]; omega
    show bb_fletcher32 data % 65536 = _
    simp only [bb_fletcher32]
    rw [Nat.shiftLeft_eq]
    have hU : U32 = 65536 * 65536 := by norm_num [U32]
    have hmm : reduce16 (f32loop data.length 65535 65535 data).2 * 65536 % U32 =
        65536 * (reduce16 (f32loop data.length 65535 65535 data).2 % 65536) := by
      rw [hU, Nat.mul_mod_mul_right]
      ring
    norm_num at hmm ⊢
    rw [hmm]
    rw [← Nat.mul_add_lt_is_or (i := 16) (by norm_num [hlow]) _]
    omega
  · have hle : (f32loop data.length 65535 65535 data).1 ≤ 65537 :=
      f32loop_fst_le data.length data h 65535 65535 (by omega)
    simp only [reduce16]
    omega
  · have hm := f32loop_fst_modeq data.length data (Nat.le_refl _) 65535 65535
    simp only [reduce16]
    omega

theorem fletcher32_lt (data : List Nat) (h : ∀ b ∈ data, b < 256) :
    bb_fletcher32 data < U32 := by
  simp only [bb_fletcher32]
  rw [Nat.shiftLeft_eq]
  apply Nat.lt_of_lt_of_le (Nat.or_lt_two_pow (n := 32) ?_ ?_) (by norm_num [U32])
  · exact Nat.lt_of_lt_of_le (Nat.mod_lt _ (by norm_num [U32])) (by norm_num [U32])
  · have hle : (f32loop data.length 65535 65535 data).1 ≤ 65537 :=
      f32loop_fst_le data.length data h 65535 65535 (by omega)
    simp only [reduce16]
    norm_num
    omega

theorem bytes_lt_append_cons {pre suf : List Nat} {b : Nat}
    (hpre : ∀ x ∈ pre, x < 256) (hsuf : ∀ x ∈ suf, x < 256) (hb : b < 256) :
    ∀ x ∈ pre ++ b :: suf, x < 256 := by
  intro x hx
  rcases List.mem_append.mp hx with h1 | h2
  · exact hpre x h1
  · rcases List.mem_cons.mp h2 with h3 | h4
    · rw [h3]; exact hb
    · exact hsuf x h4

theorem fletcher32_ne_of_byte_change (pre suf : List Nat) (b c : Nat)
    (hpre : ∀ x ∈ pre, x < 256) (hsuf : ∀ x ∈ suf, x < 256)
    (hb : b < 256) (hc : c < 256) (hne : b ≠ c) :
    bb_fletcher32 (pre ++ b :: suf) ≠ bb_fletcher32 (pre ++ c :: suf) := by
  intro heq
  obtain ⟨s1A, hA1, hA2, hA3⟩ :=
    fletcher32_split (pre ++ b :: suf) (bytes_lt_append_cons hpre hsuf hb)
  obtain ⟨s1B, hB1, hB2, hB3⟩ :=
    fletcher32_split (pre ++ c :: suf) (bytes_lt_append_cons hpre hsuf hc)
  have hs : s1A = s1B := by rw [← hA1, ← hB1, heq]
  have hsums : (pre ++ b :: suf).sum % 65535 = (pre ++ c :: suf).sum % 65535 := by
    omega
  simp only [List.sum_append, List.sum_cons] at hsums
  omega

theorem xor_left_cancel {a b c : Nat} (h : a ^^^ b = a ^^^ c) : b = c := by
  have h2 := congrArg (fun z => a ^^^ z) h
  simpa [← Nat.xor_assoc, Nat.xor_self, Nat.zero_xor] using h2

theorem xor_crcpoly_high {z : Nat} (hz : z < 2 ^ 31) : 2 ^ 31 ≤ z ^^^ CRCPOLY := by
  apply Nat.testBit_implies_ge (i := 31)
  rw [Nat.testBit_xor]
  rw [Nat.testBit_lt_two_pow hz]
  decide

theorem crcRound_lt {x : Nat} (hx : x < 2 ^ 32) : crcRound x < 2 ^ 32 := by
  simp only [crcRound]
  split
  · exact Nat.xor_lt_two_pow (by omega) (by decide)
  · omega

theorem crcRound_inj {x y : Nat} (hx : x < 2 ^ 32) (hy : y < 2 ^ 32)
    (h : crcRound x = crcRound y) : x = y := by
  simp only [crcRound] at h
  rcases Nat.mod_two_eq_zero_or_one x with px | px <;>
    rcases Nat.mod_two_eq_zero_or_one y with py | py
  · simp [px, py] at h
    omega
  · simp [px, py] at h
    have h1 : x / 2 < 2 ^ 31 := by omega
    have h2 := xor_crcpoly_high (z := y / 2) (by omega)
    omega
  · simp [px, py] at h
    have h1 : y / 2 < 2 ^ 31 := by omega
    have h2 := xor_crcpoly_high (z := x / 2) (by omega)
    omega
  · simp [px, py] at h
    have h3 := congrArg (fun z => z ^^^ CRCPOLY) h
    simp only [Nat.xor_assoc, Nat.xor_self, Nat.xor_zero] at h3
    omega

theorem crcRounds8_lt {x : Nat} (hx : x < 2 ^ 32) : crcRounds8 x < 2 ^ 32 := by
  simp only [crcRounds8]
  exact crcRound_lt (crcRound_lt (crcRound_lt (crcRound_lt
    (crcRound_lt (crcRound_lt (crcRound_lt (crcRound_lt hx)))))))

theorem crcRounds8_inj {x y : Nat} (hx : x < 2 ^ 32) (hy : y < 2 ^ 32)
    (h : crcRounds8 x = crcRounds8 y) : x = y := by
  simp only [crcRounds8] at h
  have b1 := crcRound_lt hx
  have b2 := crcRound_lt b1
  have b3 := crcRound_lt b2
  have b4 := crcRound_lt b3
  have b5 := crcRound_lt b4
  have b6 := crcRound_lt b5
  have b7 := crcRound_lt b6
  have c1 := crcRound_lt hy
  have c2 := crcRound_lt c1
  have c3 := crcRound_lt c2
  have c4 := crcRound_lt c3
  have c5 := crcRound_lt c4
  have c6 := crcRound_lt c5
  have c7 := crcRound_lt c6
  exact crcRound_inj hx hy (crcRound_inj b1 c1 (crcRound_inj b2 c2
    (crcRound_inj b3 c3 (crcRound_inj b4 c4 (crcRound_inj b5 c5
      (crcRound_inj b6 c6 (crcRound_inj b7 c7 h)))))))

theorem crcByteStep_lt {crc b : Nat} (h1 : crc < 2 ^ 32) (h2 : b < 2 ^ 32) :
    crcByteStep crc b < 2 ^ 32 :=
  crcRounds8_lt (Nat.xor_lt_two_pow h1 h2)

theorem crcByteStep_inj {c1 c2 b : Nat} (h1 : c1 < 2 ^ 32) (h2 : c2 < 2 ^ 32)
    (hb : b < 2 ^ 32) (h : crcByteStep c1 b = crcByteStep c2 b) : c1 = c2 := by
  simp only [crcByteStep] at h
  have hx := crcRounds8_inj (Nat.xor_lt_two_pow h1 hb) (Nat.xor_lt_two_pow h2 hb) h
  have := congrArg (fun z => z ^^^ b) hx
  simpa [Nat.xor_assoc, Nat.xor_self, Nat.xor_zero] using this

theorem crc_foldl_lt (l : List Nat) :
    ∀ c : Nat, c < 2 ^ 32 → (∀ b ∈ l, b < 2 ^ 32) → l.foldl crcByteStep c < 2 ^ 32 := by
  induction l with
  | nil => intro c hc _; simpa using hc
  | cons b rest ih =>
    intro c hc hl
    simp only [List.foldl_cons]
    exact ih _ (crcByteStep_lt hc (hl b (List.mem_cons_self b rest)))
      (fun x hx => hl x (List.mem_cons_of_mem b hx))

theorem crc_foldl_inj (l : List Nat) :
    ∀ c1 c2 : Nat, c1 < 2 ^ 32 → c2 < 2 ^ 32 → (∀ b ∈ l, b < 2 ^ 32) →
      c1 ≠ c2 → l.foldl crcByteStep c1 ≠ l.foldl crcByteStep c2 := by
  induction l with
  | nil => intro c1 c2 _ _ _ hne; simpa using hne
  | cons b rest ih =>
    intro c1 c2 h1 h2 hl hne
    simp only [List.foldl_cons]
    have hb : b < 2 ^ 32 := hl b (List.mem_cons_self b rest)
    apply ih _ _ (crcByteStep_lt h1 hb) (crcByteStep_lt h2 hb)
      (fun x hx => hl x (List.mem_cons_of_mem b hx))
    intro hstep
    exact hne (crcByteStep_inj h1 h2 hb hstep)

theorem crc32c_lt (data : List Nat) (h : ∀ b ∈ data, b < 256) :
    bb_crc32c_hw data < U32 := by
  have hl : ∀ b ∈ data, b < 2 ^ 32 := fun b hb => by
    have := h b hb
    omega
  have h1 : data.foldl crcByteStep 0xffffffff < 2 ^ 32 :=
    crc_foldl_lt data 0xffffffff (by norm_num) hl
  have : bb_crc32c_hw data < 2 ^ 32 :=
    Nat.xor_lt_two_pow h1 (by norm_num)
  simpa [U32] using this

theorem crc32c_ne_of_byte_change (pre suf : List Nat) (b c : Nat)
    (hpre : ∀ x ∈ pre, x < 256) (hsuf : ∀ x ∈ suf, x < 256)
    (hb : b < 256) (hc : c < 256) (hne : b ≠ c) :
    bb_crc32c_hw (pre ++ b :: suf) ≠ bb_crc32c_hw (pre ++ c :: suf) := by
  intro heq
  simp only [bb_crc32c_hw, List.foldl_append, List.foldl_cons] at heq
  have hacc : pre.foldl crcByteStep 0xffffffff < 2 ^ 32 :=
    crc_foldl_lt pre 0xffffffff (by norm_num) (fun x hx => by
      have := hpre x hx
      omega)
  have hb32 : b < 2 ^ 32 := by omega
  have hc32 : c < 2 ^ 32 := by omega
  have hxne : (pre.foldl crcByteStep 0xffffffff) ^^^ b ≠
      (pre.foldl crcByteStep 0xffffffff) ^^^ c := fun hx => hne (xor_left_cancel hx)
  have hstepne : crcByteStep (pre.foldl crcByteStep 0xffffffff) b ≠
      crcByteStep (pre.foldl crcByteStep 0xffffffff) c := by
    simp only [crcByteStep]
    intro hr
    exact hxne (crcRounds8_inj (Nat.xor_lt_two_pow hacc hb32)
      (Nat.xor_lt_two_pow hacc hc32) hr)
  have hfold := crc_foldl_inj suf _ _
    (crcByteStep_lt hacc hb32) (crcByteStep_lt hacc hc32)
    (fun x hx => by
      have := hsuf x hx
      omega) hstepne
  apply hfold
  have h2 := congrArg (fun z => z ^^^ 0xffffffff) heq
  simpa [Nat.xor_assoc, Nat.xor_self, Nat.xor_zero] using h2

/-- The checksum applied by the codec is below 2^32 whenever the span is
made of bytes, for either backend. -/
theorem checksum_lt (hw : Bool) (data : List Nat) (h : ∀ b ∈ data, b < 256) :
    checksum hw data < U32 := by
  cases hw
  · simpa [checksum] using fletcher32_lt data h
  · simpa [checksum] using crc32c_lt data h

/-- Changing a single byte of a span changes the checksum, for either
backend. -/
theorem checksum_ne_of_byte_change (hw : Bool) (pre suf : List Nat) (b c : Nat)
    (hpre : ∀ x ∈ pre, x < 256) (hsuf : ∀ x ∈ suf, x < 256)
    (hb : b < 256) (hc : c < 256) (hne : b ≠ c) :
    checksum hw (pre ++ b :: suf) ≠ checksum hw (pre ++ c :: suf) := by
  cases hw
  · simpa [checksum] using fletcher32_ne_of_byte_change pre suf b c hpre hsuf hb hc hne
  · simpa [checksum] using crc32c_ne_of_byte_change pre suf b c hpre hsuf hb hc hne

/-! ## Codec structural lemmas -/

theorem serializeHdr_length (h : BBHdr) : (serializeHdr h).length = 18 := by
  simp [serializeHdr, le16, le32]

theorem serializeHdr_bytes_lt (h : BBHdr) : ∀ b ∈ serializeHdr h, b < 256 := by
  intro b hb
  simp only [serializeHdr, le16, le32, List.cons_append, List.nil_append,
    List.mem_cons, List.not_mem_nil, or_false] at hb
  rcases hb with h1 | h1 | h1 | h1 | h1 | h1 | h1 | h1 | h1 | h1 | h1 | h1 |
      h1 | h1 | h1 | h1 | h1 | h1 <;>
    subst h1 <;> exact Nat.mod_lt _ (by norm_num)

theorem readHdr_serialize (h : BBHdr) (p : List Nat) :
    readHdr (serializeHdr h ++ p) =
      ⟨h.magic % U16, h.flags % 256, h.hdrlen % 256, h.seq % U32, h.ack % U32,
        h.len % U16, h.crc32c % U32⟩ := by
  simp only [readHdr, serializeHdr, le16, le32, rd16, rd32, U16, U32,
    List.cons_append, List.nil_append, List.getD_cons_zero, List.getD_cons_succ]
  refine BBHdr.mk.injEq .. ▸ ⟨by omega, by omega, by omega, by omega, by omega, by omega, by omega⟩

theorem zeroCrc_serialize (h : BBHdr) (p : List Nat) :
    zeroCrcSpan (serializeHdr h ++ p) = serializeHdr { h with crc32c := 0 } ++ p := by
  simp [zeroCrcSpan, serializeHdr, le16, le32]

theorem frame_bytes_lt (h : BBHdr) (p : List Nat) (hp : ∀ b ∈ p, b < 256) :
    ∀ b ∈ serializeHdr h ++ p, b < 256 := by
  intro b hb
  rcases List.mem_append.mp hb with h1 | h1
  · exact serializeHdr_bytes_lt h b h1
  · exact hp b h1

/-- The frame produced by a successful `bb_wire_pack`. -/
def packedFrame (hw : Bool) (flags seq ack : Nat) (payload : List Nat) : List Nat :=
  serializeHdr ⟨BB_MAGIC, flags, 10, seq, ack, payload.length,
    checksum hw (serializeHdr ⟨BB_MAGIC, flags, 10, seq, ack, payload.length, 0⟩ ++ payload)⟩
    ++ payload

theorem bb_wire_pack_eq (cap : Nat) (hw : Bool) (flags seq ack : Nat)
    (payload : List Nat) (hcap : HDR_SIZE + payload.length ≤ cap) :
    bb_wire_pack cap hw flags seq ack payload =
      some (packedFrame hw flags seq ack payload) := by
  simp only [bb_wire_pack, packedFrame]
  rw [if_neg (by omega)]

theorem packedFrame_length (hw : Bool) (flags seq ack : Nat) (payload : List Nat) :
    (packedFrame hw flags seq ack payload).length = HDR_SIZE + payload.length := by
  simp [packedFrame, serializeHdr_length, HDR_SIZE]

/-- Parsing a packed frame: the central round-trip computation.  Needs the
field values to be in range, and the payload to be made of bytes so that
the stored checksum is a 32-bit value. -/
theorem parse_packedFrame (hw : Bool) (flags seq ack : Nat) (payload : List Nat)
    (hf : flags < 256) (hs : seq < U32) (ha : ack < U32)
    (hlen : payload.length < U16) (hp : ∀ b ∈ payload, b < 256) :
    bb_wire_parse hw (packedFrame hw flags seq ack payload) =
      some (⟨BB_MAGIC, flags, 10, seq, ack, payload.length,
        checksum hw (serializeHdr ⟨BB_MAGIC, flags, 10, seq, ack, payload.length, 0⟩ ++ payload)⟩,
        payload) := by
  have hcrc : checksum hw
      (serializeHdr ⟨BB_MAGIC, flags, 10, seq, ack, payload.length, 0⟩ ++ payload) < U32 :=
    checksum_lt hw _ (frame_bytes_lt _ payload hp)
  simp only [packedFrame, bb_wire_parse]
  rw [if_neg (by
    simp only [List.length_append, serializeHdr_length, HDR_SIZE]
    omega)]
  rw [readHdr_serialize]
  simp only
  rw [if_neg (by simp [BB_MAGIC, U16])]
  rw [zeroCrc_serialize]
  simp only
  rw [if_neg (by
    simp only [Nat.mod_eq_of_lt hcrc]
    simp [ne_eq, not_not])]
  rw [if_neg (by
    simp only [serializeHdr_length, List.length_append]
    rw [Nat.mod_eq_of_lt hlen]
    simp only [HDR_SIZE]
    omega)]
  have hdrop : (serializeHdr ⟨BB_MAGIC, flags, 10, seq, ack, payload.length,
      checksum hw (serializeHdr ⟨BB_MAGIC, flags, 10, seq, ack, payload.length, 0⟩ ++ payload)⟩
      ++ payload).drop HDR_SIZE = payload := by
    rw [show HDR_SIZE = (serializeHdr ⟨BB_MAGIC, flags, 10, seq, ack, payload.length,
      checksum hw (serializeHdr ⟨BB_MAGIC, flags, 10, seq, ack, payload.length, 0⟩ ++ payload)⟩).length
      from (serializeHdr_length _).symm]
    exact List.drop_left _ _
  rw [hdrop]
  rw [Nat.mod_eq_of_lt hlen, List.take_length]
  congr 1
  refine congrArg₂ Prod.mk ?_ rfl
  have hm : BB_MAGIC % U16 = BB_MAGIC := by norm_num [BB_MAGIC, U16]
  simp [hm, Nat.mod_eq_of_lt hf, Nat.mod_eq_of_lt hs, Nat.mod_eq_of_lt ha,
    Nat.mod_eq_of_lt hlen, Nat.mod_eq_of_lt hcrc]

/-- C2 counterexample: with a buffer of exactly `16 + len` bytes (here
`len = 0`), `bb_wire_pack` fails (the C function returns 0), because the
packed header is 18 bytes, not 16; and even with enough capacity the
produced span has `18 + len` bytes, never `16 + len`. -/
theorem c2_pack_16_fails :
    bb_wire_pack 16 false 0 0 0 [] = none ∧
      bb_wire_pack 16 true 0 0 0 [] = none ∧
      (bb_wire_pack 32 false 0 0 0 []).map List.length ≠ some 16 := by
  refine ⟨by decide, by decide, ?_⟩
  rw [bb_wire_pack_eq 32 false 0 0 0 [] (by simp [HDR_SIZE])]
  simp [packedFrame_length, HDR_SIZE]

/-- C2 as amended: with a destination of capacity at least `18 + len`
(not `16 + len`), `bb_wire_pack` succeeds producing exactly `18 + len`
bytes, and `bb_wire_parse` on exactly those bytes succeeds, returning a
header whose `flags`, `seq`, `ack`, `len` equal the packed inputs and the
payload slice (starting at offset 18, not 16) equal to the input payload,
under either checksum backend. -/
theorem c2_pack_parse_roundtrip (cap : Nat) (hw : Bool) (flags seq ack : Nat)
    (payload : List Nat) (hcap : HDR_SIZE + payload.length ≤ cap)
    (hf : flags < 256) (hs : seq < U32) (ha : ack < U32)
    (hlen : payload.length < U16) (hp : ∀ b ∈ payload, b < 256) :
    ∃ frame h,
      bb_wire_pack cap hw flags seq ack payload = some frame ∧
      frame.length = HDR_SIZE + payload.length ∧
      bb_wire_parse hw frame = some (h, payload) ∧
      h.flags = flags ∧ h.seq = seq ∧ h.ack = ack ∧
      h.len = payload.length ∧ h.magic = BB_MAGIC ∧ h.hdrlen = 10 := by
  refine ⟨packedFrame hw flags seq ack payload,
    ⟨BB_MAGIC, flags, 10, seq, ack, payload.length,
      checksum hw (serializeHdr ⟨BB_MAGIC, flags, 10, seq, ack, payload.length, 0⟩ ++ payload)⟩,
    bb_wire_pack_eq cap hw flags seq ack payload hcap,
    packedFrame_length hw flags seq ack payload,
    parse_packedFrame hw flags seq ack payload hf hs ha hlen hp,
    rfl, rfl, rfl, rfl, rfl, rfl⟩

/-- Witness for the round-trip theorem at a concrete input (payload
`"ABC"`, Fletcher backend). -/
theorem c2_pack_parse_roundtrip_witness :
    (HDR_SIZE + 3 ≤ 64 ∧ (2 : Nat) < 256 ∧ (1 : Nat) < U32 ∧ (0 : Nat) < U32 ∧
      (3 : Nat) < U16 ∧ ∀ b ∈ [65, 66, 67], b < 256) ∧
    ∃ frame h,
      bb_wire_pack 64 false 2 1 0 [65, 66, 67] = some frame ∧
      frame.length = HDR_SIZE + 3 ∧
      bb_wire_parse false frame = some (h, [65, 66, 67]) ∧
      h.flags = 2 ∧ h.seq = 1 ∧ h.ack = 0 ∧
      h.len = 3 ∧ h.magic = BB_MAGIC ∧ h.hdrlen = 10 := by
  refine ⟨⟨by decide, by decide, by decide, by decide, by decide, by decide⟩, ?_⟩
  exact c2_pack_parse_roundtrip 64 false 2 1 0 [65, 66, 67] (by decide)
    (by decide) (by decide) (by decide) (by decide) (by decide)

/-! ## C6: the hdrlen field on receive -/

/-- An 18-byte span whose `hdrlen` field is 7 instead of 10, with magic and
checksum valid (Fletcher backend). -/
def oddHdrBase : List Nat := serializeHdr ⟨BB_MAGIC, 0, 7, 0, 0, 0, 0⟩

/-- The span above with its checksum stored, so that every check
`bb_wire_parse` actually performs passes. -/
def oddHdrFrame : List Nat :=
  serializeHdr ⟨BB_MAGIC, 0, 7, 0, 0, 0, bb_fletcher32 oddHdrBase⟩

/-- C6 counterexample: `bb_wire_parse` accepts a span whose `hdrlen` field
is 7; the claimed strict `hdrlen == 10` check does not exist in the
receive path. -/
theorem c6_hdrlen_not_checked :
    (bb_wire_parse false oddHdrFrame).map (fun p => p.1.hdrlen) = some 7 := by
  decide

/-- C6 as amended: `bb_wire_pack` always emits `hdrlen = 10`, but
`bb_wire_parse` does not validate the field: it succeeds on any span that
is at least 18 bytes, carries the magic, carries a checksum matching the
crc-zeroed span, and is long enough for its length field — regardless of
the `hdrlen` byte. -/
theorem c6_hdrlen_marker (cap : Nat) (hw : Bool) (flags seq ack : Nat)
    (payload : List Nat) (frame : List Nat)
    (hpk : bb_wire_pack cap hw flags seq ack payload = some frame)
    (buf : List Nat) (h18 : 18 ≤ buf.length)
    (hmagic : (readHdr buf).magic = BB_MAGIC)
    (hcrc : (readHdr buf).crc32c = checksum hw (zeroCrcSpan buf))
    (hlen : 18 + (readHdr buf).len ≤ buf.length) :
    frame.getD 3 0 = 10 ∧
      bb_wire_parse hw buf = some (readHdr buf, (buf.drop 18).take (readHdr buf).len) := by
  constructor
  · simp only [bb_wire_pack] at hpk
    split at hpk
    · exact absurd hpk (by simp)
    · have hf := (Option.some.injEq _ _).mp hpk
      rw [← hf]
      simp [serializeHdr, le16, le32]
  · simp only [bb_wire_parse, HDR_SIZE]
    rw [if_neg (by omega)]
    rw [if_neg (by simp [hmagic])]
    rw [if_neg (by simp [hcrc])]
    rw [if_neg (by omega)]

/-- Witness: the amended theorem applied to a concrete pack call and to the
`hdrlen = 7` frame, which parse accepts. -/
theorem c6_hdrlen_marker_witness :
    (bb_wire_pack 32 false 0 0 0 [] = some (packedFrame false 0 0 0 []) ∧
      18 ≤ oddHdrFrame.length ∧
      (readHdr oddHdrFrame).magic = BB_MAGIC ∧
      (readHdr oddHdrFrame).crc32c = checksum false (zeroCrcSpan oddHdrFrame) ∧
      18 + (readHdr oddHdrFrame).len ≤ oddHdrFrame.length) ∧
    ((packedFrame false 0 0 0 []).getD 3 0 = 10 ∧
      bb_wire_parse false oddHdrFrame =
        some (readHdr oddHdrFrame, (oddHdrFrame.drop 18).take (readHdr oddHdrFrame).len)) := by
  refine ⟨⟨?_, by decide, by decide, by decide, by decide⟩, ?_⟩
  · exact bb_wire_pack_eq 32 false 0 0 0 [] (by decide)
  · exact c6_hdrlen_marker 32 false 0 0 0 [] (packedFrame false 0 0 0 [])
      (bb_wire_pack_eq 32 false 0 0 0 [] (by decide)) oddHdrFrame
      (by decide) (by decide) (by decide) (by decide)

/-! ## C7: single-bit corruption is always rejected -/

/-- The span with bit `k` of byte `i` flipped. -/
def flipFrame (l : List Nat) (i k : Nat) : List Nat :=
  l.set i (l.getD i 0 ^^^ (1 <<< k))

theorem getD_set_self (l : List Nat) (i a : Nat) (h : i < l.length) :
    (l.set i a).getD i 0 = a := by
  simp [List.getD_eq_getElem?_getD, List.getElem?_set_self h]

theorem getD_set_ne (l : List Nat) (i j a : Nat) (h : i ≠ j) :
    (l.set i a).getD j 0 = l.getD j 0 := by
  simp [List.getD_eq_getElem?_getD, List.getElem?_set_ne h]

theorem getD_append_left {l1 l2 : List Nat} {j : Nat} (h : j < l1.length) :
    (l1 ++ l2).getD j 0 = l1.getD j 0 := by
  simp [List.getD_eq_getElem?_getD, List.getElem?_append_left h]

theorem getD_lt_of_bytes {l : List Nat} (hl : ∀ b ∈ l, b < 256) {i : Nat}
    (hi : i < l.length) : l.getD i 0 < 256 := by
  rw [List.getD_eq_getElem?_getD, List.getElem?_eq_getElem hi]
  exact hl _ (List.getElem_mem hi)

/-- Changing one in-range byte of a span changes its checksum (either
backend). -/
theorem checksum_ne_set (hw : Bool) (l : List Nat) (i a : Nat)
    (hi : i < l.length) (hl : ∀ b ∈ l, b < 256) (ha : a < 256)
    (hne : a ≠ l.getD i 0) :
    checksum hw (l.set i a) ≠ checksum hw l := by
  have hset : l.set i a = l.take i ++ a :: l.drop (i + 1) := by
    rw [List.set_eq_take_append_cons_drop, if_pos hi]
  have horig : l = l.take i ++ l.getD i 0 :: l.drop (i + 1) := by
    conv_lhs => rw [← List.take_append_drop i l]
    congr 1
    rw [List.getD_eq_getElem?_getD, List.getElem?_eq_getElem hi]
    exact (List.getElem_cons_drop l i hi).symm
  rw [hset]
  conv_rhs => rw [horig]
  exact checksum_ne_of_byte_change hw (l.take i) (l.drop (i + 1)) a (l.getD i 0)
    (fun x hx => hl x (List.mem_of_mem_take hx))
    (fun x hx => hl x (List.mem_of_mem_drop hx))
    ha (getD_lt_of_bytes hl hi) hne

/-- `bb_wire_parse` fails whenever the stored crc differs from the
checksum of the crc-zeroed span. -/
theorem parse_fails_of_crc_mismatch (hw : Bool) (buf : List Nat)
    (h : (readHdr buf).crc32c ≠ checksum hw (zeroCrcSpan buf)) :
    bb_wire_parse hw buf = none := by
  simp only [bb_wire_parse]
  split
  · rfl
  · split <;> rfl

theorem zeroCrc_bytes_lt {l : List Nat} (hl : ∀ b ∈ l, b < 256) :
    ∀ b ∈ zeroCrcSpan l, b < 256 := by
  intro b hb
  simp only [zeroCrcSpan, List.mem_append, List.mem_cons, List.not_mem_nil,
    or_false] at hb
  rcases hb with (h1 | h1 | h1 | h1 | h1) | h1
  · exact hl b (List.mem_of_mem_take h1)
  · omega
  · omega
  · omega
  · omega
  · exact hl b (List.mem_of_mem_drop h1)

theorem zeroCrc_length {l : List Nat} (h18 : 18 ≤ l.length) :
    (zeroCrcSpan l).length = l.length := by
  simp only [zeroCrcSpan, List.length_append, List.length_take, List.length_drop,
    List.length_cons, List.length_nil]
  omega

/-- Setting a byte outside the crc field commutes with `zeroCrcSpan`. -/
theorem zeroCrc_set_outside (l : List Nat) (i a : Nat) (h18 : 18 ≤ l.length)
    (hout : i < 14 ∨ 18 ≤ i) :
    zeroCrcSpan (l.set i a) = (zeroCrcSpan l).set i a := by
  have htk : (l.take 14).length = 14 := by
    simp only [List.length_take]
    omega
  rcases hout with hlt | hge
  · rw [zeroCrcSpan, zeroCrcSpan, List.set_take, List.drop_set,
      if_pos (show i < 18 by omega)]
    rw [List.set_append_left i a (by
      simp only [List.length_append, htk, List.length_cons, List.length_nil]
      omega)]
    rw [List.set_append_left i a (by omega)]
  · rw [zeroCrcSpan, zeroCrcSpan, List.set_take,
      List.set_eq_of_length_le (by omega),
      List.drop_set, if_neg (by omega)]
    rw [List.set_append_right i a (by
      simp only [List.length_append, htk, List.length_cons, List.length_nil]
      omega)]
    congr 2
    simp only [List.length_append, htk, List.length_cons, List.length_nil]

/-- Setting a byte inside the crc field leaves `zeroCrcSpan` unchanged. -/
theorem zeroCrc_set_crcfield (l : List Nat) (i a : Nat)
    (h14 : 14 ≤ i) (h18 : i < 18) :
    zeroCrcSpan (l.set i a) = zeroCrcSpan l := by
  rw [zeroCrcSpan, zeroCrcSpan, List.set_take, List.set_eq_of_length_le (by
    simp only [List.length_take]
    omega)]
  rw [List.drop_set, if_pos h18]

theorem getD_append_right {l1 l2 : List Nat} {j : Nat} (h : l1.length ≤ j) :
    (l1 ++ l2).getD j 0 = l2.getD (j - l1.length) 0 := by
  simp [List.getD_eq_getElem?_getD, List.getElem?_append_right h]

theorem getD_drop (l : List Nat) (n j : Nat) :
    (l.drop n).getD j 0 = l.getD (n + j) 0 := by
  simp [List.getD_eq_getElem?_getD, List.getElem?_drop]

theorem zeroCrc_getD (l : List Nat) (i : Nat) (h18 : 18 ≤ l.length)
    (hout : i < 14 ∨ 18 ≤ i) :
    (zeroCrcSpan l).getD i 0 = l.getD i 0 := by
  have htk : (l.take 14).length = 14 := by
    simp only [List.length_take]
    omega
  rcases hout with hlt | hge
  · rw [zeroCrcSpan, getD_append_left (by
      simp only [List.length_append, htk, List.length_cons, List.length_nil]
      omega), getD_append_left (by omega)]
    simp [List.getD_eq_getElem?_getD, List.getElem?_take_of_lt hlt]
  · rw [zeroCrcSpan, getD_append_right (by
      simp only [List.length_append, htk, List.length_cons, List.length_nil]
      omega)]
    rw [getD_drop]
    congr 1
    simp only [List.length_append, htk, List.length_cons, List.length_nil]
    omega

theorem serialize_getD_crc (h : BBHdr) :
    (serializeHdr h).getD 14 0 = h.crc32c % 256 ∧
    (serializeHdr h).getD 15 0 = h.crc32c / 256 % 256 ∧
    (serializeHdr h).getD 16 0 = h.crc32c / 65536 % 256 ∧
    (serializeHdr h).getD 17 0 = h.crc32c / 16777216 % 256 := by
  refine ⟨?_, ?_, ?_, ?_⟩ <;>
    simp [serializeHdr, le16, le32, List.getD_cons_zero, List.getD_cons_succ]

theorem rd32_digits (c : Nat) (hc : c < U32) :
    rd32 (c % 256) (c / 256 % 256) (c / 65536 % 256) (c / 16777216 % 256) = c := by
  simp only [rd32, U32] at *
  omega

/-- C7 counterexample to the span-size parenthetical: a packed frame with
an empty payload is 18 bytes, not `16 + len = 16`. -/
theorem c7_frame_is_18_not_16 :
    (bb_wire_pack 18 false 0 0 0 []).map List.length = some 18 ∧
      (bb_wire_pack 18 false 0 0 0 []).map List.length ≠ some 16 := by
  constructor
  · rw [bb_wire_pack_eq 18 false 0 0 0 [] (by decide)]
    simp [packedFrame_length, HDR_SIZE]
  · rw [bb_wire_pack_eq 18 false 0 0 0 [] (by decide)]
    simp [packedFrame_length, HDR_SIZE]

/-- C7 as amended: a frame produced by `bb_wire_pack` occupies `18 + len`
bytes, and flipping any single bit anywhere in that `18 + len` span makes
`bb_wire_parse` fail, under either checksum backend. -/
theorem c7_bitflip_rejected (cap : Nat) (hw : Bool) (flags seq ack : Nat)
    (payload : List Nat) (frame : List Nat) (i k : Nat)
    (hp : ∀ b ∈ payload, b < 256)
    (hpk : bb_wire_pack cap hw flags seq ack payload = some frame)
    (hi : i < frame.length) (hk : k < 8) :
    frame.length = 18 + payload.length ∧
      bb_wire_parse hw (flipFrame frame i k) = none := by
  have hframe : frame = packedFrame hw flags seq ack payload := by
    simp only [bb_wire_pack] at hpk
    split at hpk
    · exact absurd hpk (by simp)
    · exact ((Option.some.injEq _ _).mp hpk).symm
  subst hframe
  refine ⟨packedFrame_length hw flags seq ack payload, ?_⟩
  have hlen18 : (packedFrame hw flags seq ack payload).length = 18 + payload.length :=
    packedFrame_length hw flags seq ack payload
  have hbytes : ∀ b ∈ packedFrame hw flags seq ack payload, b < 256 :=
    frame_bytes_lt _ payload hp
  have h18 : 18 ≤ (packedFrame hw flags seq ack payload).length := by omega
  have hbase : zeroCrcSpan (packedFrame hw flags seq ack payload) =
      serializeHdr ⟨BB_MAGIC, flags, 10, seq, ack, payload.length, 0⟩ ++ payload := by
    simp only [packedFrame]
    exact zeroCrc_serialize _ payload
  have hbasebytes : ∀ b ∈ serializeHdr ⟨BB_MAGIC, flags, 10, seq, ack, payload.length, 0⟩
      ++ payload, b < 256 := frame_bytes_lt _ payload hp
  have hcrclt : checksum hw
      (serializeHdr ⟨BB_MAGIC, flags, 10, seq, ack, payload.length, 0⟩ ++ payload) < U32 :=
    checksum_lt hw _ hbasebytes
  have hstored : (readHdr (packedFrame hw flags seq ack payload)).crc32c =
      checksum hw (serializeHdr ⟨BB_MAGIC, flags, 10, seq, ack, payload.length, 0⟩ ++ payload) := by
    simp only [packedFrame]
    rw [readHdr_serialize]
    exact Nat.mod_eq_of_lt hcrclt
  set oldb := (packedFrame hw flags seq ack payload).getD i 0 with holdb
  have holdlt : oldb < 256 := getD_lt_of_bytes hbytes hi
  have hnewlt : oldb ^^^ (1 <<< k) < 256 := by
    have h2k : 1 <<< k < 256 := by
      rw [Nat.shiftLeft_eq, one_mul]
      have : (2 : Nat) ^ k ≤ 2 ^ 7 := Nat.pow_le_pow_right (by norm_num) (by omega)
      omega
    have hpow : (2 : Nat) ^ 8 = 256 := by norm_num
    have := Nat.xor_lt_two_pow (n := 8) (x := oldb) (y := 1 <<< k)
      (by omega) (by omega)
    omega
  have hnewne : oldb ^^^ (1 <<< k) ≠ oldb := by
    intro hxe
    have h0 : oldb ^^^ (1 <<< k) = oldb ^^^ 0 := by rw [Nat.xor_zero]; exact hxe
    have := xor_left_cancel h0
    rw [Nat.shiftLeft_eq, one_mul] at this
    exact absurd this (Nat.pos_iff_ne_zero.mp (Nat.two_pow_pos k))
  apply parse_fails_of_crc_mismatch
  by_cases hcrcfield : 14 ≤ i ∧ i < 18
  · -- the flipped bit lies inside the stored crc field: the recomputed
    -- checksum is unchanged but the stored value is not
    rw [show flipFrame (packedFrame hw flags seq ack payload) i k =
        (packedFrame hw flags seq ack payload).set i (oldb ^^^ (1 <<< k)) from rfl]
    rw [zeroCrc_set_crcfield _ _ _ hcrcfield.1 hcrcfield.2, hbase]
    obtain ⟨hc14, hc15, hc16, hc17⟩ :=
      serialize_getD_crc ⟨BB_MAGIC, flags, 10, seq, ack, payload.length,
        checksum hw (serializeHdr ⟨BB_MAGIC, flags, 10, seq, ack, payload.length, 0⟩ ++ payload)⟩
    have hgf : ∀ j, j < 18 → (packedFrame hw flags seq ack payload).getD j 0 =
        (serializeHdr ⟨BB_MAGIC, flags, 10, seq, ack, payload.length,
          checksum hw (serializeHdr ⟨BB_MAGIC, flags, 10, seq, ack, payload.length, 0⟩ ++ payload)⟩).getD j 0 := by
      intro j hj
      simp only [packedFrame]
      exact getD_append_left (by rw [serializeHdr_length]; omega)
    simp only [readHdr]
    set cv := checksum hw
      (serializeHdr ⟨BB_MAGIC, flags, 10, seq, ack, payload.length, 0⟩ ++ payload) with hcv
    have hrd : rd32 (cv % 256) (cv / 256 % 256) (cv / 65536 % 256) (cv / 16777216 % 256) = cv :=
      rd32_digits cv hcrclt
    obtain ⟨hcf1, hcf2⟩ := hcrcfield
    interval_cases i
    · rw [getD_set_self _ _ _ hi, getD_set_ne _ _ _ _ (by omega),
        getD_set_ne _ _ _ _ (by omega), getD_set_ne _ _ _ _ (by omega)]
      rw [hgf 15 (by omega), hgf 16 (by omega), hgf 17 (by omega), hc15, hc16, hc17]
      rw [holdb, hgf 14 (by omega), hc14] at hnewlt hnewne ⊢
      simp only [rd32, U32] at *
      omega
    · rw [getD_set_ne _ _ _ _ (by omega), getD_set_self _ _ _ hi,
        getD_set_ne _ _ _ _ (by omega), getD_set_ne _ _ _ _ (by omega)]
      rw [hgf 14 (by omega), hgf 16 (by omega), hgf 17 (by omega), hc14, hc16, hc17]
      rw [holdb, hgf 15 (by omega), hc15] at hnewlt hnewne ⊢
      simp only [rd32, U32] at *
      omega
    · rw [getD_set_ne _ _ _ _ (by omega), getD_set_ne _ _ _ _ (by omega),
        getD_set_self _ _ _ hi, getD_set_ne _ _ _ _ (by omega)]
      rw [hgf 14 (by omega), hgf 15 (by omega), hgf 17 (by omega), hc14, hc15, hc17]
      rw [holdb, hgf 16 (by omega), hc16] at hnewlt hnewne ⊢
      simp only [rd32, U32] at *
      omega
    · rw [getD_set_ne _ _ _ _ (by omega), getD_set_ne _ _ _ _ (by omega),
        getD_set_ne _ _ _ _ (by omega), getD_set_self _ _ _ hi]
      rw [hgf 14 (by omega), hgf 15 (by omega), hgf 16 (by omega), hc14, hc15, hc16]
      rw [holdb, hgf 17 (by omega), hc17] at hnewlt hnewne ⊢
      simp only [rd32, U32] at *
      omega
  · -- the flipped bit lies outside the stored crc field: the stored value
    -- is unchanged but the recomputed checksum is not
    have hout : i < 14 ∨ 18 ≤ i := by omega
    have hstored2 : (readHdr (flipFrame (packedFrame hw flags seq ack payload) i k)).crc32c =
        (readHdr (packedFrame hw flags seq ack payload)).crc32c := by
      simp only [readHdr, flipFrame]
      rw [getD_set_ne _ _ _ _ (by omega), getD_set_ne _ _ _ _ (by omega),
        getD_set_ne _ _ _ _ (by omega), getD_set_ne _ _ _ _ (by omega)]
    rw [hstored2, hstored]
    rw [show flipFrame (packedFrame hw flags seq ack payload) i k =
        (packedFrame hw flags seq ack payload).set i (oldb ^^^ (1 <<< k)) from rfl]
    rw [zeroCrc_set_outside _ _ _ h18 hout]
    intro heq
    apply checksum_ne_set hw (zeroCrcSpan (packedFrame hw flags seq ack payload)) i
      (oldb ^^^ (1 <<< k)) (by rw [zeroCrc_length h18]; exact hi)
      (zeroCrc_bytes_lt hbytes) hnewlt
      (by rw [zeroCrc_getD _ _ h18 hout]; exact hnewne)
    rw [hbase] at heq ⊢
    exact heq.symm

/-- Witness for the bit-flip theorem: flipping bit 0 of byte 20 (a payload
byte) of a concrete packed frame makes parse fail. -/
theorem c7_bitflip_rejected_witness :
    ((∀ b ∈ [65, 66, 67], b < 256) ∧
      bb_wire_pack 64 false 2 1 0 [65, 66, 67] = some (packedFrame false 2 1 0 [65, 66, 67]) ∧
      20 < (packedFrame false 2 1 0 [65, 66, 67]).length ∧ 0 < 8) ∧
    ((packedFrame false 2 1 0 [65, 66, 67]).length = 18 + 3 ∧
      bb_wire_parse false (flipFrame (packedFrame false 2 1 0 [65, 66, 67]) 20 0) = none) := by
  refine ⟨⟨by decide, bb_wire_pack_eq 64 false 2 1 0 [65, 66, 67] (by decide),
    by decide, by decide⟩, ?_⟩
  have := c7_bitflip_rejected 64 false 2 1 0 [65, 66, 67]
    (packedFrame false 2 1 0 [65, 66, 67]) 20 0 (by decide)
    (bb_wire_pack_eq 64 false 2 1 0 [65, 66, 67] (by decide)) (by decide) (by decide)
  simpa using this

/-! ## Channel emulator (`src/bb_channel.c`)

The configuration's probability and delay fields are C doubles used only
in comparisons and products of modest magnitude; they are modelled as
exact rationals.  The clock `bb_now_ns()` and the socket (`sendto`,
`select`) are the oracle `ChanEnv`. -/

/-- 2^64, the modulus of the PRNG state. -/
def U64 : Nat := 18446744073709551616

/-- `xorshift64` from `src/bb_channel.c`:
`x ^= x << 13; x ^= x >> 7; x ^= x << 17` in `uint64_t` arithmetic. -/
def xorshift64 (s : Nat) : Nat :=
  let x1 := s ^^^ ((s <<< 13) % U64)
  let x2 := x1 ^^^ (x1 >>> 7)
  x2 ^^^ ((x2 <<< 17) % U64)

/-- Modelled from the spec: the `xorshift64*` generator the spec names
(shift triple 12/25/27 followed by multiplication with
`0x2545F4914F6CDD1D`), for comparison against the source's `xorshift64`. -/
def xorshift64star (s : Nat) : Nat :=
  let x1 := s ^^^ (s >>> 12)
  let x2 := x1 ^^^ ((x1 <<< 25) % U64)
  let x3 := x2 ^^^ (x2 >>> 27)
  (x3 * 0x2545F4914F6CDD1D) % U64

/-- `frand01`: advance the generator once and scale its top 53 bits by
2^53; returns the uniform value and the new generator state. -/
def frand01 (s : Nat) : ℚ × Nat :=
  let x := xorshift64 s
  (((x >>> 11 : Nat) : ℚ) / 9007199254740992, x)

/-- `decide` from `src/bb_channel.c` (renamed; the identifier is a tactic
keyword): one Bernoulli draw at `pct` percent. -/
def decidePct (pct : ℚ) (rng : Nat) : Bool × Nat :=
  let f := frand01 rng
  (f.1 < pct / 100, f.2)

/-- `ms2ns`: `(uint64_t)(ms * 1e6)`, applied to nonnegative values. -/
def ms2ns (ms : ℚ) : Nat := ⌊ms * 1000000⌋₊

/-- The channel impairment configuration `bb_channel_cfg_t`. -/
structure ChanCfg where
  loss_pct : ℚ
  dup_pct : ℚ
  reorder_pct : ℚ
  delay_mean_ms : ℚ
  delay_jitter_ms : ℚ
  rate_mbps : ℚ
  seed : Nat
deriving DecidableEq

/-- The channel state `bb_channel_s` (socket handle and peer address are
outside the model; the outbound FIFO stores byte buffers with their
`ready_ts`). -/
structure ChanState where
  cfg : ChanCfg
  now : Nat
  token_ns_per_byte : Nat
  next_tx_ts : Nat
  queue : List (List Nat × Nat)
  rng : Nat
deriving DecidableEq

/-- One `sendto` outcome: success, `EAGAIN`/`EWOULDBLOCK`, or a fatal
socket error. -/
inductive SockRes where
  | ok
  | eagain
  | fatal
deriving DecidableEq

/-- Oracle for the channel: successive `bb_now_ns()` values and `sendto`
outcomes. -/
structure ChanEnv where
  nows : List Nat
  socks : List SockRes
deriving DecidableEq

/-- Pop the next clock reading (0 once exhausted). -/
def popNow (e : ChanEnv) : Nat × ChanEnv :=
  match e.nows with
  | [] => (0, e)
  | n :: ns => (n, { e with nows := ns })

/-- Pop the next socket outcome (success once exhausted). -/
def popSock (e : ChanEnv) : SockRes × ChanEnv :=
  match e.socks with
  | [] => (SockRes.ok, e)
  | s :: ss => (s, { e with socks := ss })

/-- `bb_channel_create`: seed 0 resolves to the fixed constant
`0xC0FFEE1234`; the token bucket cost is `(8.0 / rate_mbps) * 1e3` ns per
byte when a rate is configured. -/
def bb_channel_create (cfg : ChanCfg) : ChanState :=
  { cfg := cfg
    now := 0
    token_ns_per_byte := if 0 < cfg.rate_mbps then ⌊8 / cfg.rate_mbps * 1000⌋₊ else 0
    next_tx_ts := 0
    queue := []
    rng := if cfg.seed = 0 then 0xC0FFEE1234 else cfg.seed }

/-- `jittered_delay_ns`: `max(0, mean + Uniform(-jitter, +jitter))`
milliseconds, in nanoseconds; returns the delay and new generator state. -/
def jittered_delay_ns (cfg : ChanCfg) (rng : Nat) : Nat × Nat :=
  let f := frand01 rng
  (ms2ns (max 0 (cfg.delay_mean_ms + (f.1 * 2 - 1) * cfg.delay_jitter_ms)), f.2)

/-- `maybe_reorder`: swap the first two queued frames with probability
`reorder_pct`; draws from the generator only when at least two frames are
queued. -/
def maybe_reorder (cfg : ChanCfg) (q : List (List Nat × Nat)) (rng : Nat) :
    List (List Nat × Nat) × Nat :=
  match q with
  | a :: b :: rest =>
    let d := decidePct cfg.reorder_pct rng
    (if d.1 then b :: a :: rest else a :: b :: rest, d.2)
  | _ => (q, rng)

/-- The bounded wait of the send path: sleep in chunks of at most 5 ms
until the head frame is ready or ~150 ms have been waited; only the
channel's `now` changes. -/
def waitLoop : Nat → ChanState → ChanEnv → Nat → ChanState × ChanEnv
  | 0, st, env, _ => (st, env)
  | fuel + 1, st, env, waited =>
    match st.queue with
    | [] => (st, env)
    | f :: _ =>
      let p := popNow env
      let st2 := { st with now := p.1 }
      if f.2 ≤ p.1 then (st2, p.2)
      else if ms2ns 150 ≤ waited then (st2, p.2)
      else waitLoop fuel st2 p.2 (waited + min (f.2 - p.1) (ms2ns 5))

/-- Result record of the drain loop inside `bb_channel_send`. -/
structure DrainRes where
  fatal : Bool
  total : Nat
  queue : List (List Nat × Nat)
  next_tx : Nat
  now : Nat
  env : ChanEnv
  sentFrames : List (List Nat)

/-- The drain loop of `bb_channel_send`: transmit ready frames while the
token bucket permits, stopping on a not-ready head, a rate limit, or
would-block; a fatal socket error aborts the call. -/
def drainLoop (tok : Nat) : List (List Nat × Nat) → Nat → Nat → ChanEnv → DrainRes
  | [], ntx, now0, env => ⟨false, 0, [], ntx, now0, env, []⟩
  | f :: rest, ntx, _, env =>
    let p := popNow env
    if p.1 < f.2 then ⟨false, 0, f :: rest, ntx, p.1, p.2, []⟩
    else if tok ≠ 0 ∧ p.1 < ntx then ⟨false, 0, f :: rest, ntx, p.1, p.2, []⟩
    else
      let ntx2 := if tok ≠ 0 then p.1 + tok * f.1.length else ntx
      let s := popSock p.2
      match s.1 with
      | SockRes.fatal => ⟨true, 0, f :: rest, ntx2, p.1, s.2, []⟩
      | SockRes.eagain => ⟨false, 0, f :: rest, ntx2, p.1, s.2, []⟩
      | SockRes.ok =>
        let r := drainLoop tok rest ntx2 p.1 s.2
        ⟨r.fatal, f.1.length + r.total, r.queue, r.next_tx, r.now, r.env, f.1 :: r.sentFrames⟩

/-- `bb_channel_send`: loss/dup/reorder decisions at enqueue time, then
the bounded wait and the drain.  Returns the C return value, the new
state, the remaining oracle, and the frames actually passed to `sendto`.
A dropped frame reports logical success immediately. -/
def bb_channel_send (st : ChanState) (buf : List Nat) (env : ChanEnv)
    (fuel : Nat) : Int × ChanState × ChanEnv × List (List Nat) :=
  let p0 := popNow env
  let st0 := { st with now := p0.1 }
  let dl := decidePct st0.cfg.loss_pct st0.rng
  if dl.1 then ((buf.length : Int), { st0 with rng := dl.2 }, p0.2, [])
  else
    let jd := jittered_delay_ns st0.cfg dl.2
    let ready := st0.now + jd.1
    let q1 := st0.queue ++ [(buf, ready)]
    let dd := decidePct st0.cfg.dup_pct jd.2
    let q2 := if dd.1 then q1 ++ [(buf, ready + ms2ns 1)] else q1
    let mr := maybe_reorder st0.cfg q2 dd.2
    let st1 := { st0 with queue := mr.1, rng := mr.2 }
    let w := waitLoop fuel st1 p0.2 0
    let dr := drainLoop w.1.token_ns_per_byte w.1.queue w.1.next_tx_ts w.1.now w.2
    let st2 := { w.1 with queue := dr.queue, next_tx_ts := dr.next_tx, now := dr.now }
    let res : Int := if dr.fatal then -1
      else if 0 < dr.total then (dr.total : Int) else (buf.length : Int)
    (res, st2, dr.env, dr.sentFrames)

theorem xorshift64_lt {s : Nat} (hs : s < U64) : xorshift64 s < U64 := by
  have hp : 0 < U64 := by norm_num [U64]
  have h64 : U64 = 2 ^ 64 := by norm_num [U64]
  simp only [xorshift64]
  have hmod1 : (s <<< 13) % U64 < U64 := Nat.mod_lt _ hp
  have hx1 : s ^^^ (s <<< 13) % U64 < U64 := by
    rw [h64] at hs hmod1 ⊢
    exact Nat.xor_lt_two_pow hs hmod1
  have hsh : (s ^^^ (s <<< 13) % U64) >>> 7 < U64 := by
    rw [Nat.shiftRight_eq_div_pow]
    exact Nat.lt_of_le_of_lt (Nat.div_le_self _ _) hx1
  have hx2 : (s ^^^ (s <<< 13) % U64) ^^^ (s ^^^ (s <<< 13) % U64) >>> 7 < U64 := by
    rw [h64] at hx1 hsh ⊢
    exact Nat.xor_lt_two_pow hx1 hsh
  have hmod2 : (((s ^^^ (s <<< 13) % U64) ^^^ (s ^^^ (s <<< 13) % U64) >>> 7) <<< 17)
      % U64 < U64 := Nat.mod_lt _ hp
  rw [h64] at hx2 hmod2 ⊢
  exact Nat.xor_lt_two_pow hx2 hmod2

theorem frand01_nonneg (s : Nat) : 0 ≤ (frand01 s).1 := by
  simp only [frand01]
  positivity

theorem frand01_lt_one {s : Nat} (hs : s < U64) : (frand01 s).1 < 1 := by
  simp only [frand01]
  rw [div_lt_one (by norm_num)]
  have hx : xorshift64 s < U64 := xorshift64_lt hs
  have hdiv : xorshift64 s >>> 11 < 2 ^ 53 := by
    rw [Nat.shiftRight_eq_div_pow]
    have : U64 = 2 ^ 53 * 2 ^ 11 := by norm_num [U64]
    omega
  calc ((xorshift64 s >>> 11 : Nat) : ℚ) < ((2 ^ 53 : Nat) : ℚ) := by
        exact_mod_cast hdiv
    _ = 9007199254740992 := by norm_num

/-- A full-probability draw always fires (the uniform value is in
`[0, 1)` and `100 / 100 = 1`). -/
theorem decidePct_hundred {s : Nat} (hs : s < U64) :
    (decidePct 100 s).1 = true := by
  simp only [decidePct]
  rw [decide_eq_true_iff]
  have h1 : (100 : ℚ) / 100 = 1 := by norm_num
  rw [h1]
  exact frand01_lt_one hs

/-! ## C10: a lossy send short-circuits -/

/-- C10: when the loss draw drops the frame, `bb_channel_send` returns the
input length immediately: nothing reaches `sendto`, and the outbound
queue and the token-bucket deadline are untouched. -/
theorem c10_loss_short_circuit (st : ChanState) (buf : List Nat)
    (env : ChanEnv) (fuel : Nat)
    (hloss : (decidePct st.cfg.loss_pct st.rng).1 = true) :
    (bb_channel_send st buf env fuel).1 = (buf.length : Int) ∧
      (bb_channel_send st buf env fuel).2.1.queue = st.queue ∧
      (bb_channel_send st buf env fuel).2.1.next_tx_ts = st.next_tx_ts ∧
      (bb_channel_send st buf env fuel).2.2.2 = [] := by
  simp [bb_channel_send, hloss]

/-- Witness: a channel with `loss_pct = 100` drops (the uniform draw is
always below 1), and the short-circuit conclusions hold concretely. -/
theorem c10_loss_short_circuit_witness :
    ((decidePct (bb_channel_create ⟨100, 0, 0, 0, 0, 0, 7⟩).cfg.loss_pct
        (bb_channel_create ⟨100, 0, 0, 0, 0, 0, 7⟩).rng).1 = true) ∧
    ((bb_channel_send (bb_channel_create ⟨100, 0, 0, 0, 0, 0, 7⟩) [1, 2, 3] ⟨[], []⟩ 4).1 = (3 : Int) ∧
      (bb_channel_send (bb_channel_create ⟨100, 0, 0, 0, 0, 0, 7⟩) [1, 2, 3] ⟨[], []⟩ 4).2.1.queue =
        (bb_channel_create ⟨100, 0, 0, 0, 0, 0, 7⟩).queue ∧
      (bb_channel_send (bb_channel_create ⟨100, 0, 0, 0, 0, 0, 7⟩) [1, 2, 3] ⟨[], []⟩ 4).2.1.next_tx_ts =
        (bb_channel_create ⟨100, 0, 0, 0, 0, 0, 7⟩).next_tx_ts ∧
      (bb_channel_send (bb_channel_create ⟨100, 0, 0, 0, 0, 0, 7⟩) [1, 2, 3] ⟨[], []⟩ 4).2.2.2 = []) := by
  have hloss : (decidePct (bb_channel_create ⟨100, 0, 0, 0, 0, 0, 7⟩).cfg.loss_pct
      (bb_channel_create ⟨100, 0, 0, 0, 0, 0, 7⟩).rng).1 = true := by
    show (decidePct 100 7).1 = true
    exact decidePct_hundred (by decide)
  exact ⟨hloss, c10_loss_short_circuit (bb_channel_create ⟨100, 0, 0, 0, 0, 0, 7⟩)
    [1, 2, 3] ⟨[], []⟩ 4 hloss⟩

/-! ## C8: the channel PRNG -/

/-- C8 counterexample: the generator actually advancing the channel's
uniform source (`frand01`, hence every impairment decision) is plain
`xorshift64` with shift triple 13/7/17, not the `xorshift64*` algorithm
the claim names: the two differ already at state 1. -/
theorem c8_not_xorshift64star : (frand01 1).2 ≠ xorshift64star 1 := by
  decide

theorem maybe_reorder_rng (cfg : ChanCfg) (q : List (List Nat × Nat)) (rng : Nat) :
    (maybe_reorder cfg q rng).2 =
      if 2 ≤ q.length then (decidePct cfg.reorder_pct rng).2 else rng := by
  match q with
  | [] => simp [maybe_reorder]
  | [a] => simp [maybe_reorder]
  | a :: b :: rest => simp [maybe_reorder]

theorem waitLoop_rng : ∀ (fuel : Nat) (st : ChanState) (env : ChanEnv) (w : Nat),
    (waitLoop fuel st env w).1.rng = st.rng ∧
      (waitLoop fuel st env w).1.cfg = st.cfg ∧
      (waitLoop fuel st env w).1.queue = st.queue ∧
      (waitLoop fuel st env w).1.token_ns_per_byte = st.token_ns_per_byte ∧
      (waitLoop fuel st env w).1.next_tx_ts = st.next_tx_ts := by
  intro fuel
  induction fuel with
  | zero => intro st env w; exact ⟨rfl, rfl, rfl, rfl, rfl⟩
  | succ n ih =>
    intro st env w
    show (waitLoop (n + 1) st env w).1.rng = st.rng ∧ _
    rw [waitLoop]
    match hq : st.queue with
    | [] => exact ⟨rfl, rfl, hq.symm ▸ rfl, rfl, rfl⟩
    | f :: rest =>
      simp only
      split
      · exact ⟨rfl, rfl, hq.symm ▸ rfl, rfl, rfl⟩
      · split
        · exact ⟨rfl, rfl, hq.symm ▸ rfl, rfl, rfl⟩
        · have := ih { st with now := (popNow env).1 } (popNow env).2
            (w + min (f.2 - (popNow env).1) (ms2ns 5))
          simpa [hq] using this

/-- The generator state after one `bb_channel_send`: one draw for loss;
on survival one draw for jitter, one for duplication, and one for reorder
exactly when at least two frames end up queued.  In particular the rng
stream depends only on the configuration, the incoming rng state, and
the queue length — not on the clock or socket oracle. -/
theorem send_rng_formula (st : ChanState) (buf : List Nat) (env : ChanEnv)
    (fuel : Nat) :
    (bb_channel_send st buf env fuel).2.1.rng =
      (let dl := decidePct st.cfg.loss_pct st.rng
       if dl.1 then dl.2
       else
         let jd := jittered_delay_ns st.cfg dl.2
         let dd := decidePct st.cfg.dup_pct jd.2
         if dd.1 ∨ 1 ≤ st.queue.length then (decidePct st.cfg.reorder_pct dd.2).2
         else dd.2) := by
  simp only [bb_channel_send]
  by_cases hdl : (decidePct st.cfg.loss_pct st.rng).1
  · simp [hdl]
  · simp only [hdl, if_false, Bool.false_eq_true]
    rw [(waitLoop_rng fuel _ _ _).1]
    show (maybe_reorder st.cfg _ _).2 = _
    rw [maybe_reorder_rng]
    by_cases hdd : (decidePct st.cfg.dup_pct (jittered_delay_ns st.cfg
        (decidePct st.cfg.loss_pct st.rng).2).2).1
    · simp only [hdd, if_true, List.length_append, List.length_cons,
        List.length_nil, true_or]
      rw [if_pos (by omega)]
    · simp only [hdd, if_false, Bool.false_eq_true, List.length_append,
        List.length_cons, List.length_nil, false_or]
      by_cases hq : 1 ≤ st.queue.length
      · rw [if_pos (by omega), if_pos hq]
      · rw [if_neg (by omega), if_neg hq]

/-- C8 as amended: the channel's random source is plain `xorshift64`
(shifts 13/7/17, no finalizing multiply); a zero seed resolves to
`0xC0FFEE1234`; each uniform value is the top 53 bits of one generator
output scaled by 2^53, hence lies in `[0, 1)`; and the decision stream of
a send depends only on the configuration, the generator state, and the
queue length, so equally-seeded channels with equal configurations and
call sequences decide identically. -/
theorem c8_prng (cfg : ChanCfg) (s : Nat) (hs : s < U64)
    (st1 st2 : ChanState) (buf1 buf2 : List Nat) (env1 env2 : ChanEnv)
    (f1 f2 : Nat) (hrng : st1.rng = st2.rng) (hcfg : st1.cfg = st2.cfg)
    (hql : st1.queue.length = st2.queue.length) :
    (bb_channel_create cfg).rng = (if cfg.seed = 0 then 0xC0FFEE1234 else cfg.seed) ∧
    (frand01 s).2 = xorshift64 s ∧
    (frand01 s).1 = ((xorshift64 s >>> 11 : Nat) : ℚ) / 2 ^ 53 ∧
    0 ≤ (frand01 s).1 ∧ (frand01 s).1 < 1 ∧
    (bb_channel_send st1 buf1 env1 f1).2.1.rng =
      (bb_channel_send st2 buf2 env2 f2).2.1.rng := by
  refine ⟨rfl, rfl, by norm_num [frand01], frand01_nonneg s, frand01_lt_one hs, ?_⟩
  rw [send_rng_formula, send_rng_formula, hrng, hcfg, hql]

/-- Witness for the amended PRNG theorem at concrete inputs. -/
theorem c8_prng_witness :
    ((1 : Nat) < U64 ∧
      (bb_channel_create ⟨0, 0, 0, 0, 0, 0, 0⟩).rng = 0xC0FFEE1234 ∧
      (bb_channel_send (bb_channel_create ⟨0, 0, 0, 0, 0, 0, 0⟩) [5] ⟨[9], []⟩ 3).2.1.rng =
        (bb_channel_send (bb_channel_create ⟨0, 0, 0, 0, 0, 0, 0⟩) [6, 6] ⟨[], [SockRes.eagain]⟩ 8).2.1.rng) := by
  refine ⟨by decide, ?_, ?_⟩
  · exact ((c8_prng ⟨0, 0, 0, 0, 0, 0, 0⟩ 1 (by decide)
      (bb_channel_create ⟨0, 0, 0, 0, 0, 0, 0⟩) (bb_channel_create ⟨0, 0, 0, 0, 0, 0, 0⟩)
      [5] [6, 6] ⟨[9], []⟩ ⟨[], [SockRes.eagain]⟩ 3 8 rfl rfl rfl).1).trans (by decide)
  · exact (c8_prng ⟨0, 0, 0, 0, 0, 0, 0⟩ 1 (by decide)
      (bb_channel_create ⟨0, 0, 0, 0, 0, 0, 0⟩) (bb_channel_create ⟨0, 0, 0, 0, 0, 0, 0⟩)
      [5] [6, 6] ⟨[9], []⟩ ⟨[], [SockRes.eagain]⟩ 3 8 rfl rfl rfl).2.2.2.2.2

/-! ## GBN engine (`src/bb_gbn.c`)

The clock and the channel below the engine are the oracle `Env`:
successive `bb_now_ns()` readings, successive `bb_channel_send` return
values, and successive `bb_channel_recv` outcomes (`Sum.inl code` for a
timeout or error, `Sum.inr bytes` for a received datagram).  Frames the
engine hands to `bb_channel_send` are logged in `sent`. -/

/-- Oracle for the engines. -/
structure Env where
  nows : List Nat
  sendResults : List Int
  recvResults : List (Int ⊕ List Nat)
  sent : List (List Nat)

/-- The empty oracle: clock 0, every channel send succeeds, every receive
times out. -/
def Env0 : Env := ⟨[], [], [], []⟩

/-- Pop a clock reading (0 once exhausted). -/
def envNow (e : Env) : Nat × Env :=
  match e.nows with
  | [] => (0, e)
  | n :: ns => (n, { e with nows := ns })

/-- Pop a channel-send result and log the frame (success once exhausted). -/
def envSend (e : Env) (frame : List Nat) : Int × Env :=
  match e.sendResults with
  | [] => (0, { e with sent := e.sent ++ [frame] })
  | r :: rs => (r, { e with sendResults := rs, sent := e.sent ++ [frame] })

/-- Pop a channel-recv outcome as `(rn, bytes)` (timeout once exhausted). -/
def envRecv (e : Env) : (Int × List Nat) × Env :=
  match e.recvResults with
  | [] => ((0, []), e)
  | Sum.inl code :: rs => ((min code 0, []), { e with recvResults := rs })
  | Sum.inr bytes :: rs => (((bytes.length : Int), bytes), { e with recvResults := rs })

/-- `bb_proto_cfg_t`. -/
structure ProtoCfg where
  init_seq : Nat
  wnd : Nat
  mss : Nat
  rto_ms : Nat
deriving DecidableEq

/-- The zero-field defaults both engines apply (`wnd=32, mss=512,
rto=120`). -/
def protoDefaults (cfg : ProtoCfg) : ProtoCfg :=
  { cfg with wnd := if cfg.wnd = 0 then 32 else cfg.wnd
             mss := if cfg.mss = 0 then 512 else cfg.mss
             rto_ms := if cfg.rto_ms = 0 then 120 else cfg.rto_ms }

/-- `gbn_t`: the GBN engine state.  `outbuf` is the retransmission
snapshot (`outlen` is its length; the 64 KiB capacity is applied on
send); `inbuf`/`have_in` form the single-slot delivery latch. -/
structure Gbn where
  cfg : ProtoCfg
  snd_una : Nat
  snd_nxt : Nat
  rcv_nxt : Nat
  timer_ts : Nat
  timer_running : Bool
  outbuf : List Nat
  have_in : Bool
  inbuf : List Nat
deriving DecidableEq

/-- `start_timer`. -/
def start_timer (s : Gbn) (now : Nat) : Gbn :=
  { s with timer_ts := now + s.cfg.rto_ms * 1000000, timer_running := true }

/-- `bb_proto_gbn_create`: apply defaults (the `uint32_t` configuration
fields are reduced mod 2^32) and start with an empty window, an empty
snapshot, and an empty latch. -/
def bb_proto_gbn_create (cfg : ProtoCfg) : Gbn :=
  let c := protoDefaults ⟨cfg.init_seq % U32, cfg.wnd % U32, cfg.mss % U32, cfg.rto_ms % U32⟩
  { cfg := c
    snd_una := c.init_seq
    snd_nxt := c.init_seq
    rcv_nxt := c.init_seq
    timer_ts := 0
    timer_running := false
    outbuf := []
    have_in := false
    inbuf := [] }

/-- `send_frame` (GBN): pack a DATA frame (1500-byte stack buffer, length
truncated to `uint16_t`), hand it to the channel, and arm the timer on
success if it was not running. -/
def send_frame (hw : Bool) (s : Gbn) (seq : Nat) (p : List Nat) (e : Env) :
    Int × Gbn × Env :=
  match bb_wire_pack 1500 hw BB_FLAG_DATA seq s.rcv_nxt (p.take (p.length % U16)) with
  | none => (-1, s, e)
  | some frame =>
    let r := envSend e frame
    if r.1 < 0 then (-1, s, r.2)
    else if s.timer_running then (0, s, r.2)
    else
      let n := envNow r.2
      (0, start_timer s n.1, n.2)

/-- `send_ack` (GBN): pack and send a pure ACK, ignoring the channel
result. -/
def send_ack (hw : Bool) (rcvn : Nat) (e : Env) : Env :=
  match bb_wire_pack 64 hw BB_FLAG_ACK 0 rcvn [] with
  | none => (envSend e []).2
  | some frame => (envSend e frame).2

/-- The retransmission loop of `retransmit_window_from_snapshot`:
resend every sequence of `[snd_una, snd_nxt)` from the snapshot, slicing
at `mss` boundaries, stopping early when the snapshot is exhausted. -/
def gbnRetransLoop (hw : Bool) : Nat → Gbn → Nat → Env → Gbn × Env
  | 0, s, _, e => (s, e)
  | fuel + 1, s, q, e =>
    if 0 < seq_cmp s.snd_nxt q then
      let off2 := udiff q s.snd_una * s.cfg.mss
      if s.outbuf.length ≤ off2 then (s, e)
      else
        let c2 := min (s.outbuf.length - off2) s.cfg.mss
        let r := send_frame hw s q ((s.outbuf.drop off2).take c2) e
        gbnRetransLoop hw fuel r.2.1 (bb_next_seq q) r.2.2
    else (s, e)

/-- `retransmit_window_from_snapshot`: with an empty window or an empty
snapshot, stop the timer and return; otherwise resend the outstanding
window from the snapshot and restart the timer. -/
def retransmit_window_from_snapshot (hw : Bool) (s : Gbn) (e : Env)
    (fuel : Nat) : Gbn × Env :=
  if seq_cmp s.snd_nxt s.snd_una ≤ 0 ∨ s.outbuf.length = 0 then
    ({ s with timer_running := false }, e)
  else
    let r := gbnRetransLoop hw fuel s s.snd_una e
    let n := envNow r.2
    (start_timer r.1 n.1, n.2)

/-- The fragmentation loop of the GBN `bb_proto_send`: send chunks of at
most `mss` while the window has room, advancing `snd_nxt` per chunk. -/
def gbnSendLoop (hw : Bool) (data : List Nat) : Nat → Gbn → Nat → Env → Int × Gbn × Env
  | 0, s, _, e => (0, s, e)
  | fuel + 1, s, off, e =>
    if off < data.length then
      if s.cfg.wnd ≤ udiff s.snd_nxt s.snd_una then (0, s, e)
      else
        let chunk := min (data.length - off) s.cfg.mss
        let r := send_frame hw s s.snd_nxt ((data.drop off).take chunk) e
        if r.1 < 0 then (-1, r.2.1, r.2.2)
        else gbnSendLoop hw data fuel
          { r.2.1 with snd_nxt := bb_next_seq r.2.1.snd_nxt } (off + chunk) r.2.2
    else (0, s, e)

/-- The GBN `bb_proto_send`: snapshot the message (truncated to the 64 KiB
snapshot capacity) and run the nonblocking fragmentation loop. -/
def gbn_proto_send (hw : Bool) (s : Gbn) (data : List Nat) (e : Env)
    (fuel : Nat) : Int × Gbn × Env :=
  let d := data.take 65536
  gbnSendLoop hw d fuel { s with outbuf := d } 0 e

/-- The cumulative-ACK step of the GBN `bb_proto_recv` (`src/bb_gbn.c`
lines 188-192): accept an ack lying in `[snd_una, snd_nxt]` by signed
comparison, slide the window, and stop or restart the timer. -/
def gbnAckHandle (s : Gbn) (ackv : Nat) (e : Env) : Gbn × Env :=
  if 0 ≤ seq_cmp ackv s.snd_una ∧ seq_cmp ackv s.snd_nxt ≤ 0 then
    let s1 := { s with snd_una := ackv }
    if seq_cmp s1.snd_una s1.snd_nxt = 0 then ({ s1 with timer_running := false }, e)
    else
      let n := envNow e
      (start_timer s1 n.1, n.2)
  else (s, e)

/-- The timer-expiry check and conditional retransmission used at the top
of the GBN `bb_proto_recv` and again after a timeout (`timer_expired`
reads the clock only when the timer is armed, matching the
short-circuit). -/
def gbnRtoCheck (hw : Bool) (s : Gbn) (e : Env) (fuel : Nat) : Gbn × Env :=
  if 0 < seq_cmp s.snd_nxt s.snd_una then
    if s.timer_running then
      let n := envNow e
      if s.timer_ts ≤ n.1 then retransmit_window_from_snapshot hw s n.2 fuel
      else (s, n.2)
    else (s, e)
  else (s, e)

/-- The GBN `bb_proto_recv`: deliver the latch if occupied; otherwise check
the RTO, poll the channel, parse, consume the cumulative ack, and deliver
an in-order DATA payload (truncated to `cap`), acknowledging `rcv_nxt`.
Returns `(rn, delivered bytes, state, oracle)`. -/
def gbn_proto_recv (hw : Bool) (s : Gbn) (cap : Nat) (e : Env) (fuel : Nat) :
    Int × List Nat × Gbn × Env :=
  if s.have_in then
    let n := min s.inbuf.length cap
    ((n : Int), s.inbuf.take n, { s with have_in := false, inbuf := [] }, e)
  else
    let pre := gbnRtoCheck hw s e fuel
    let s1 := pre.1
    let rr := envRecv pre.2
    let rn := rr.1.1
    if rn ≤ 0 then
      if rn = 0 then
        let post := gbnRtoCheck hw s1 rr.2 fuel
        (rn, [], post.1, post.2)
      else (rn, [], s1, rr.2)
    else
      match bb_wire_parse hw rr.1.2 with
      | none => (0, [], s1, rr.2)
      | some (h, pl) =>
        let ah := gbnAckHandle s1 h.ack rr.2
        let s2 := ah.1
        if h.flags &&& BB_FLAG_DATA = 0 then (0, [], s2, ah.2)
        else if seq_cmp h.seq s2.rcv_nxt ≠ 0 then
          (0, [], s2, send_ack hw s2.rcv_nxt ah.2)
        else
          let L := min h.len cap
          let s3 := { s2 with rcv_nxt := bb_next_seq s2.rcv_nxt }
          ((L : Int), pl.take L, s3, send_ack hw s3.rcv_nxt ah.2)

/-- States of a GBN engine reachable through the public operations. -/
inductive GbnReach (hw : Bool) : Gbn → Prop where
  | create (cfg : ProtoCfg) : GbnReach hw (bb_proto_gbn_create cfg)
  | send (s : Gbn) (data : List Nat) (e : Env) (fuel : Nat) :
      GbnReach hw s → GbnReach hw (gbn_proto_send hw s data e fuel).2.1
  | recv (s : Gbn) (cap : Nat) (e : Env) (fuel : Nat) :
      GbnReach hw s → GbnReach hw (gbn_proto_recv hw s cap e fuel).2.2.1

/-- States reachable when every `bb_proto_send` call carries a nonempty
message. -/
inductive GbnReachPos (hw : Bool) : Gbn → Prop where
  | create (cfg : ProtoCfg) : GbnReachPos hw (bb_proto_gbn_create cfg)
  | send (s : Gbn) (data : List Nat) (e : Env) (fuel : Nat) :
      data ≠ [] → GbnReachPos hw s → GbnReachPos hw (gbn_proto_send hw s data e fuel).2.1
  | recv (s : Gbn) (cap : Nat) (e : Env) (fuel : Nat) :
      GbnReachPos hw s → GbnReachPos hw (gbn_proto_recv hw s cap e fuel).2.2.1

/-! ## Sequence-space arithmetic -/

theorem udiff_lt (a b : Nat) : udiff a b < U32 :=
  Nat.mod_lt _ (by norm_num [U32])

theorem udiff_self (a : Nat) : udiff a a = 0 := by
  simp only [udiff, U32]
  omega

theorem udiff_eq_zero_iff {a b : Nat} (ha : a < U32) (hb : b < U32) :
    udiff a b = 0 ↔ a = b := by
  simp only [udiff, U32] at *
  omega

theorem toSigned_nonneg_iff {u : Nat} (hu : u < U32) :
    0 ≤ toSigned u ↔ u < 2147483648 := by
  simp only [toSigned, U32] at *
  split <;> omega

theorem toSigned_nonpos_iff {u : Nat} (hu : u < U32) :
    toSigned u ≤ 0 ↔ (u = 0 ∨ 2147483648 ≤ u) := by
  simp only [toSigned, U32] at *
  split <;> omega

theorem toSigned_pos_iff {u : Nat} (hu : u < U32) :
    0 < toSigned u ↔ (0 < u ∧ u < 2147483648) := by
  simp only [toSigned, U32] at *
  split <;> omega

theorem toSigned_neg_iff {u : Nat} (hu : u < U32) :
    toSigned u < 0 ↔ 2147483648 ≤ u := by
  simp only [toSigned, U32] at *
  split <;> omega

theorem toSigned_eq_zero_iff {u : Nat} (hu : u < U32) :
    toSigned u = 0 ↔ u = 0 := by
  simp only [toSigned, U32] at *
  split <;> omega

theorem seq_cmp_zero_iff {a b : Nat} (ha : a < U32) (hb : b < U32) :
    seq_cmp a b = 0 ↔ a = b := by
  rw [seq_cmp, toSigned_eq_zero_iff (udiff_lt a b), udiff_eq_zero_iff ha hb]

theorem udiff_next {a b : Nat} (ha : a < U32) (hb : b < U32)
    (h : udiff a b < U32 - 1) : udiff (bb_next_seq a) b = udiff a b + 1 := by
  simp only [udiff, bb_next_seq, U32] at *
  omega

/-- An acknowledged value inside `[snd_una, snd_nxt]` (signed) cannot
widen the outstanding window. -/
theorem ack_window_le {una nxt ackv : Nat} (h1 : una < U32) (h2 : nxt < U32)
    (h3 : ackv < U32) (hge : 0 ≤ seq_cmp ackv una) (hle : seq_cmp ackv nxt ≤ 0) :
    udiff nxt ackv ≤ udiff nxt una := by
  rw [seq_cmp, toSigned_nonneg_iff (udiff_lt ackv una)] at hge
  rw [seq_cmp, toSigned_nonpos_iff (udiff_lt ackv nxt)] at hle
  simp only [udiff, U32] at *
  omega

/-- An ack accepted while the window is empty is exactly the window edge. -/
theorem ack_empty_eq {una nxt ackv : Nat} (h1 : una < U32) (_h2 : nxt < U32)
    (h3 : ackv < U32) (hge : 0 ≤ seq_cmp ackv una) (hle : seq_cmp ackv nxt ≤ 0)
    (heq : una = nxt) : ackv = una := by
  rw [seq_cmp, toSigned_nonneg_iff (udiff_lt ackv una)] at hge
  rw [seq_cmp, toSigned_nonpos_iff (udiff_lt ackv nxt)] at hle
  simp only [udiff, U32] at *
  omega

/-! ## GBN invariants -/

/-- Well-formedness of the GBN sequence window: both edges are 32-bit
values and the unsigned outstanding count is bounded by the configured
window. -/
def GbnWf (s : Gbn) : Prop :=
  s.snd_una < U32 ∧ s.snd_nxt < U32 ∧
    udiff s.snd_nxt s.snd_una ≤ s.cfg.wnd ∧ s.cfg.wnd < U32

/-- The timer discipline: armed exactly when the window is nonempty, and
a nonempty window implies a nonempty snapshot. -/
def GbnTimerInv (s : Gbn) : Prop :=
  (s.timer_running = true ↔ udiff s.snd_nxt s.snd_una ≠ 0) ∧
    (udiff s.snd_nxt s.snd_una ≠ 0 → s.outbuf ≠ [])

theorem gbn_create_wf (cfg : ProtoCfg) : GbnWf (bb_proto_gbn_create cfg) := by
  refine ⟨?_, ?_, ?_, ?_⟩ <;>
    simp only [bb_proto_gbn_create, protoDefaults, udiff_self]
  · exact Nat.mod_lt _ (by norm_num [U32])
  · exact Nat.mod_lt _ (by norm_num [U32])
  · exact Nat.zero_le _
  · split
    · norm_num [U32]
    · exact Nat.mod_lt _ (by norm_num [U32])

theorem gbn_create_timer (cfg : ProtoCfg) : GbnTimerInv (bb_proto_gbn_create cfg) := by
  constructor
  · simp [bb_proto_gbn_create, udiff_self]
  · simp [bb_proto_gbn_create, udiff_self]

theorem send_frame_spec (hw : Bool) (s : Gbn) (seq : Nat) (p : List Nat) (e : Env) :
    (send_frame hw s seq p e).2.1.snd_una = s.snd_una ∧
    (send_frame hw s seq p e).2.1.snd_nxt = s.snd_nxt ∧
    (send_frame hw s seq p e).2.1.rcv_nxt = s.rcv_nxt ∧
    (send_frame hw s seq p e).2.1.cfg = s.cfg ∧
    (send_frame hw s seq p e).2.1.outbuf = s.outbuf ∧
    (send_frame hw s seq p e).2.1.have_in = s.have_in ∧
    (send_frame hw s seq p e).2.1.inbuf = s.inbuf ∧
    ((send_frame hw s seq p e).1 < 0 ∧
        (send_frame hw s seq p e).2.1.timer_running = s.timer_running ∨
      (send_frame hw s seq p e).1 = 0 ∧
        (send_frame hw s seq p e).2.1.timer_running = true) := by
  simp only [send_frame]
  split
  · exact ⟨rfl, rfl, rfl, rfl, rfl, rfl, rfl, Or.inl ⟨by norm_num, rfl⟩⟩
  · split
    · exact ⟨rfl, rfl, rfl, rfl, rfl, rfl, rfl, Or.inl ⟨by norm_num, rfl⟩⟩
    · split
      · refine ⟨rfl, rfl, rfl, rfl, rfl, rfl, rfl, Or.inr ⟨rfl, ?_⟩⟩
        assumption
      · exact ⟨rfl, rfl, rfl, rfl, rfl, rfl, rfl, Or.inr ⟨rfl, rfl⟩⟩

theorem gbnRetransLoop_spec (hw : Bool) : ∀ (fuel : Nat) (s : Gbn) (q : Nat) (e : Env),
    (gbnRetransLoop hw fuel s q e).1.snd_una = s.snd_una ∧
    (gbnRetransLoop hw fuel s q e).1.snd_nxt = s.snd_nxt ∧
    (gbnRetransLoop hw fuel s q e).1.rcv_nxt = s.rcv_nxt ∧
    (gbnRetransLoop hw fuel s q e).1.cfg = s.cfg ∧
    (gbnRetransLoop hw fuel s q e).1.outbuf = s.outbuf ∧
    (gbnRetransLoop hw fuel s q e).1.have_in = s.have_in ∧
    (gbnRetransLoop hw fuel s q e).1.inbuf = s.inbuf ∧
    (s.timer_running = true → (gbnRetransLoop hw fuel s q e).1.timer_running = true) := by
  intro fuel
  induction fuel with
  | zero => intro s q e; exact ⟨rfl, rfl, rfl, rfl, rfl, rfl, rfl, fun h => h⟩
  | succ n ih =>
    intro s q e
    rw [gbnRetransLoop]
    split
    · dsimp only
      split
      · exact ⟨rfl, rfl, rfl, rfl, rfl, rfl, rfl, fun h => h⟩
      · obtain ⟨f1, f2, f3, f4, f5, f6, f7, f8⟩ :=
          send_frame_spec hw s q ((s.outbuf.drop (udiff q s.snd_una * s.cfg.mss)).take
            (min (s.outbuf.length - udiff q s.snd_una * s.cfg.mss) s.cfg.mss)) e
        obtain ⟨g1, g2, g3, g4, g5, g6, g7, g8⟩ := ih
          (send_frame hw s q ((s.outbuf.drop (udiff q s.snd_una * s.cfg.mss)).take
            (min (s.outbuf.length - udiff q s.snd_una * s.cfg.mss) s.cfg.mss)) e).2.1
          (bb_next_seq q)
          (send_frame hw s q ((s.outbuf.drop (udiff q s.snd_una * s.cfg.mss)).take
            (min (s.outbuf.length - udiff q s.snd_una * s.cfg.mss) s.cfg.mss)) e).2.2
        refine ⟨g1.trans f1, g2.trans f2, g3.trans f3, g4.trans f4, g5.trans f5,
          g6.trans f6, g7.trans f7, fun h => ?_⟩
        apply g8
        rcases f8 with ⟨_, ht⟩ | ⟨_, ht⟩
        · rw [ht]; exact h
        · exact ht
    · exact ⟨rfl, rfl, rfl, rfl, rfl, rfl, rfl, fun h => h⟩

theorem retransmit_spec (hw : Bool) (s : Gbn) (e : Env) (fuel : Nat) :
    (retransmit_window_from_snapshot hw s e fuel).1.snd_una = s.snd_una ∧
    (retransmit_window_from_snapshot hw s e fuel).1.snd_nxt = s.snd_nxt ∧
    (retransmit_window_from_snapshot hw s e fuel).1.rcv_nxt = s.rcv_nxt ∧
    (retransmit_window_from_snapshot hw s e fuel).1.cfg = s.cfg ∧
    (retransmit_window_from_snapshot hw s e fuel).1.outbuf = s.outbuf ∧
    (retransmit_window_from_snapshot hw s e fuel).1.have_in = s.have_in ∧
    (retransmit_window_from_snapshot hw s e fuel).1.inbuf = s.inbuf ∧
    (retransmit_window_from_snapshot hw s e fuel).1.timer_running =
      (if seq_cmp s.snd_nxt s.snd_una ≤ 0 ∨ s.outbuf.length = 0 then false else true) := by
  simp only [retransmit_window_from_snapshot]
  split
  · simp_all
  · obtain ⟨g1, g2, g3, g4, g5, g6, g7, _⟩ := gbnRetransLoop_spec hw fuel s s.snd_una e
    simp_all [start_timer]

theorem gbnSendLoop_pres (hw : Bool) (data : List Nat) :
    ∀ (fuel : Nat) (s : Gbn) (off : Nat) (e : Env), GbnWf s →
    GbnWf (gbnSendLoop hw data fuel s off e).2.1 ∧
    (gbnSendLoop hw data fuel s off e).2.1.snd_una = s.snd_una ∧
    (gbnSendLoop hw data fuel s off e).2.1.rcv_nxt = s.rcv_nxt ∧
    (gbnSendLoop hw data fuel s off e).2.1.cfg = s.cfg ∧
    (gbnSendLoop hw data fuel s off e).2.1.outbuf = s.outbuf ∧
    (gbnSendLoop hw data fuel s off e).2.1.have_in = s.have_in ∧
    (gbnSendLoop hw data fuel s off e).2.1.inbuf = s.inbuf ∧
    (GbnTimerInv s → s.outbuf ≠ [] →
      GbnTimerInv (gbnSendLoop hw data fuel s off e).2.1) := by
  intro fuel
  induction fuel with
  | zero =>
    intro s off e hwf
    exact ⟨hwf, rfl, rfl, rfl, rfl, rfl, rfl, fun h _ => h⟩
  | succ n ih =>
    intro s off e hwf
    rw [gbnSendLoop]
    split
    · split
      · exact ⟨hwf, rfl, rfl, rfl, rfl, rfl, rfl, fun h _ => h⟩
      · dsimp only
        obtain ⟨f1, f2, f3, f4, f5, f6, f7, f8⟩ :=
          send_frame_spec hw s s.snd_nxt ((data.drop off).take
            (min (data.length - off) s.cfg.mss)) e
        split
        · -- the frame failed: the state is unchanged field by field
          refine ⟨⟨?_, ?_, ?_, ?_⟩, f1, f3, f4, f5, f6, f7, fun h _ => ⟨?_, ?_⟩⟩
          · rw [f1]; exact hwf.1
          · rw [f2]; exact hwf.2.1
          · rw [f1, f2, f4]; exact hwf.2.2.1
          · rw [f4]; exact hwf.2.2.2
          · rw [f1, f2]
            rcases f8 with ⟨_, ht⟩ | ⟨hz, _⟩
            · rw [ht]; exact h.1
            · exfalso; omega
          · rw [f1, f2, f5]; exact h.2
        · -- the frame went out: snd_nxt advances by one inside the window
          rename_i hwin hok
          have hlt : udiff s.snd_nxt s.snd_una < s.cfg.wnd := Nat.lt_of_not_le hwin
          have hstep : udiff (bb_next_seq s.snd_nxt) s.snd_una =
              udiff s.snd_nxt s.snd_una + 1 :=
            udiff_next hwf.2.1 hwf.1 (by
              have := hwf.2.2.2
              omega)
          have harm : (send_frame hw s s.snd_nxt ((data.drop off).take
              (min (data.length - off) s.cfg.mss)) e).2.1.timer_running = true := by
            rcases f8 with ⟨hneg, _⟩ | ⟨_, ht⟩
            · exact absurd hneg hok
            · exact ht
          obtain ⟨g0, g1, g3, g4, g5, g6, g7, g8⟩ := ih
            { (send_frame hw s s.snd_nxt ((data.drop off).take
                (min (data.length - off) s.cfg.mss)) e).2.1 with
              snd_nxt := bb_next_seq (send_frame hw s s.snd_nxt ((data.drop off).take
                (min (data.length - off) s.cfg.mss)) e).2.1.snd_nxt }
            (off + min (data.length - off) s.cfg.mss)
            (send_frame hw s s.snd_nxt ((data.drop off).take
              (min (data.length - off) s.cfg.mss)) e).2.2
            (by
              refine ⟨?_, ?_, ?_, ?_⟩
              · show (send_frame hw s _ _ e).2.1.snd_una < U32
                rw [f1]; exact hwf.1
              · show bb_next_seq (send_frame hw s _ _ e).2.1.snd_nxt < U32
                exact Nat.mod_lt _ (by norm_num [U32])
              · show udiff (bb_next_seq (send_frame hw s _ _ e).2.1.snd_nxt)
                  (send_frame hw s _ _ e).2.1.snd_una ≤ _
                rw [f1, f2, f4, hstep]
                omega
              · show (send_frame hw s _ _ e).2.1.cfg.wnd < U32
                rw [f4]; exact hwf.2.2.2)
          refine ⟨g0, ?_, ?_, ?_, ?_, ?_, ?_, fun h hob => ?_⟩
          · rw [g1]; exact f1
          · rw [g3]; exact f3
          · rw [g4]; exact f4
          · rw [g5]; exact f5
          · rw [g6]; exact f6
          · rw [g7]; exact f7
          · apply g8
            · constructor
              · show _ ↔ udiff (bb_next_seq (send_frame hw s _ _ e).2.1.snd_nxt)
                  (send_frame hw s _ _ e).2.1.snd_una ≠ 0
                rw [f1, f2, hstep, harm]
                simp
              · intro _
                show (send_frame hw s _ _ e).2.1.outbuf ≠ []
                rw [f5]
                exact hob
            · show (send_frame hw s _ _ e).2.1.outbuf ≠ []
              rw [f5]
              exact hob
    · exact ⟨hwf, rfl, rfl, rfl, rfl, rfl, rfl, fun h _ => h⟩

theorem gbn_send_pres (hw : Bool) (s : Gbn) (data : List Nat) (e : Env)
    (fuel : Nat) (hwf : GbnWf s) :
    GbnWf (gbn_proto_send hw s data e fuel).2.1 ∧
    (gbn_proto_send hw s data e fuel).2.1.snd_una = s.snd_una ∧
    (gbn_proto_send hw s data e fuel).2.1.rcv_nxt = s.rcv_nxt ∧
    (gbn_proto_send hw s data e fuel).2.1.cfg = s.cfg ∧
    (gbn_proto_send hw s data e fuel).2.1.have_in = s.have_in ∧
    (gbn_proto_send hw s data e fuel).2.1.inbuf = s.inbuf ∧
    (GbnTimerInv s → data ≠ [] → GbnTimerInv (gbn_proto_send hw s data e fuel).2.1) := by
  have hwf0 : GbnWf { s with outbuf := data.take 65536 } := hwf
  obtain ⟨g0, g1, g3, g4, g5, g6, g7, g8⟩ :=
    gbnSendLoop_pres hw (data.take 65536) fuel { s with outbuf := data.take 65536 } 0 e hwf0
  refine ⟨g0, g1, g3, g4, g6, g7, fun ht hne => ?_⟩
  have htake : data.take 65536 ≠ [] := by
    match data with
    | [] => exact absurd rfl hne
    | b :: rest => simp [List.take]
  exact g8 ⟨ht.1, fun _ => htake⟩ htake

theorem gbnRtoCheck_pres (hw : Bool) (s : Gbn) (e : Env) (fuel : Nat) :
    (gbnRtoCheck hw s e fuel).1.snd_una = s.snd_una ∧
    (gbnRtoCheck hw s e fuel).1.snd_nxt = s.snd_nxt ∧
    (gbnRtoCheck hw s e fuel).1.rcv_nxt = s.rcv_nxt ∧
    (gbnRtoCheck hw s e fuel).1.cfg = s.cfg ∧
    (gbnRtoCheck hw s e fuel).1.outbuf = s.outbuf ∧
    (gbnRtoCheck hw s e fuel).1.have_in = s.have_in ∧
    (gbnRtoCheck hw s e fuel).1.inbuf = s.inbuf ∧
    (GbnWf s → GbnTimerInv s → GbnTimerInv (gbnRtoCheck hw s e fuel).1) := by
  rw [gbnRtoCheck]
  by_cases hpos : 0 < seq_cmp s.snd_nxt s.snd_una
  · rw [if_pos hpos]
    by_cases hrun : s.timer_running = true
    · rw [if_pos hrun]
      dsimp only
      by_cases hexp : s.timer_ts ≤ (envNow e).1
      · rw [if_pos hexp]
        obtain ⟨r1, r2, r3, r4, r5, r6, r7, r8⟩ :=
          retransmit_spec hw s (envNow e).2 fuel
        refine ⟨r1, r2, r3, r4, r5, r6, r7, fun hwf ht => ?_⟩
        have hu : udiff s.snd_nxt s.snd_una ≠ 0 := by
          rw [seq_cmp, toSigned_pos_iff (udiff_lt _ _)] at hpos
          omega
        have hob : s.outbuf ≠ [] := ht.2 hu
        have hguard : ¬(seq_cmp s.snd_nxt s.snd_una ≤ 0 ∨ s.outbuf.length = 0) := by
          push_neg
          constructor
          · omega
          · simpa using hob
        constructor
        · rw [r8, if_neg hguard, r1, r2]
          simp [hu]
        · rw [r1, r2, r5]
          exact ht.2
      · rw [if_neg hexp]
        exact ⟨rfl, rfl, rfl, rfl, rfl, rfl, rfl, fun _ ht => ht⟩
    · rw [if_neg hrun]
      exact ⟨rfl, rfl, rfl, rfl, rfl, rfl, rfl, fun _ ht => ht⟩
  · rw [if_neg hpos]
    exact ⟨rfl, rfl, rfl, rfl, rfl, rfl, rfl, fun _ ht => ht⟩

theorem gbnAckHandle_pres (s : Gbn) (ackv : Nat) (e : Env)
    (ha : ackv < U32) (hwf : GbnWf s) :
    GbnWf (gbnAckHandle s ackv e).1 ∧
    (gbnAckHandle s ackv e).1.snd_nxt = s.snd_nxt ∧
    (gbnAckHandle s ackv e).1.rcv_nxt = s.rcv_nxt ∧
    (gbnAckHandle s ackv e).1.cfg = s.cfg ∧
    (gbnAckHandle s ackv e).1.outbuf = s.outbuf ∧
    (gbnAckHandle s ackv e).1.have_in = s.have_in ∧
    (gbnAckHandle s ackv e).1.inbuf = s.inbuf ∧
    (GbnTimerInv s → GbnTimerInv (gbnAckHandle s ackv e).1) := by
  simp only [gbnAckHandle]
  split
  · rename_i hacc
    have hle : udiff s.snd_nxt ackv ≤ udiff s.snd_nxt s.snd_una :=
      ack_window_le hwf.1 hwf.2.1 ha hacc.1 hacc.2
    split
    · rename_i hzero
      refine ⟨⟨ha, hwf.2.1, ?_, hwf.2.2.2⟩, rfl, rfl, rfl, rfl, rfl, rfl, fun ht => ?_⟩
      · exact Nat.le_trans hle hwf.2.2.1
      · have heqn : ackv = s.snd_nxt := (seq_cmp_zero_iff ha hwf.2.1).mp hzero
        constructor
        · show false = true ↔ udiff s.snd_nxt ackv ≠ 0
          rw [heqn, udiff_self]
          simp
        · show udiff s.snd_nxt ackv ≠ 0 → s.outbuf ≠ []
          rw [heqn, udiff_self]
          intro hcon
          exact absurd rfl hcon
    · rename_i hnz
      refine ⟨⟨ha, hwf.2.1, ?_, hwf.2.2.2⟩, rfl, rfl, rfl, rfl, rfl, rfl, fun ht => ?_⟩
      · exact Nat.le_trans hle hwf.2.2.1
      · have hne : ackv ≠ s.snd_nxt := fun hcon =>
          hnz ((seq_cmp_zero_iff ha hwf.2.1).mpr hcon)
        have hu : udiff s.snd_nxt ackv ≠ 0 := fun hcon =>
          hne ((udiff_eq_zero_iff hwf.2.1 ha).mp hcon).symm
        have hold : udiff s.snd_nxt s.snd_una ≠ 0 := by omega
        constructor
        · simp only [start_timer]
          simp [hu]
        · intro _
          show s.outbuf ≠ []
          exact ht.2 hold
  · exact ⟨hwf, rfl, rfl, rfl, rfl, rfl, rfl, fun ht => ht⟩

/-- A successful parse returns exactly the decoded header, whose
multi-byte fields are in range by construction. -/
theorem parse_some_hdr {hw : Bool} {buf : List Nat} {h : BBHdr} {pl : List Nat}
    (hp : bb_wire_parse hw buf = some (h, pl)) :
    h = readHdr buf ∧ h.ack < U32 ∧ h.seq < U32 ∧ h.len < U16 := by
  have hh : h = readHdr buf := by
    simp only [bb_wire_parse] at hp
    split at hp
    · exact absurd hp (by simp)
    · split at hp
      · exact absurd hp (by simp)
      · split at hp
        · exact absurd hp (by simp)
        · split at hp
          · exact absurd hp (by simp)
          · exact (congrArg Prod.fst ((Option.some.injEq _ _).mp hp)).symm
  refine ⟨hh, ?_, ?_, ?_⟩ <;> rw [hh]
  · exact Nat.mod_lt _ (by norm_num [U32])
  · exact Nat.mod_lt _ (by norm_num [U32])
  · exact Nat.mod_lt _ (by norm_num [U16])

theorem gbn_recv_pres (hw : Bool) (s : Gbn) (cap : Nat) (e : Env) (fuel : Nat)
    (hwf : GbnWf s) :
    GbnWf (gbn_proto_recv hw s cap e fuel).2.2.1 ∧
    (GbnTimerInv s → GbnTimerInv (gbn_proto_recv hw s cap e fuel).2.2.1) ∧
    (s.have_in = false → (gbn_proto_recv hw s cap e fuel).2.2.1.have_in = false) := by
  simp only [gbn_proto_recv]
  split
  · exact ⟨hwf, fun ht => ht, fun _ => rfl⟩
  · obtain ⟨p1, p2, p3, p4, p5, p6, p7, p8⟩ := gbnRtoCheck_pres hw s e fuel
    have hwf1 : GbnWf (gbnRtoCheck hw s e fuel).1 := by
      unfold GbnWf at hwf ⊢
      rw [p1, p2, p4]
      exact hwf
    split
    · split
      · obtain ⟨q1, q2, q3, q4, q5, q6, q7, q8⟩ :=
          gbnRtoCheck_pres hw (gbnRtoCheck hw s e fuel).1 (envRecv (gbnRtoCheck hw s e fuel).2).2 fuel
        refine ⟨?_, fun ht => ?_, fun hin => ?_⟩
        · unfold GbnWf at hwf1 ⊢
          rw [q1, q2, q4]
          exact hwf1
        · exact q8 hwf1 (p8 hwf ht)
        · rw [q6, p6]; exact hin
      · exact ⟨hwf1, fun ht => p8 hwf ht, fun hin => by rw [p6]; exact hin⟩
    · split
      · exact ⟨hwf1, fun ht => p8 hwf ht, fun hin => by rw [p6]; exact hin⟩
      · rename_i h pl hp
        obtain ⟨hh, hackb, hseqb, hlenb⟩ := parse_some_hdr hp
        obtain ⟨a0, a2, a3, a4, a5, a6, a7, a8⟩ :=
          gbnAckHandle_pres (gbnRtoCheck hw s e fuel).1 h.ack
            (envRecv (gbnRtoCheck hw s e fuel).2).2 hackb hwf1
        split
        · exact ⟨a0, fun ht => a8 (p8 hwf ht), fun hin => by rw [a6, p6]; exact hin⟩
        · split
          · exact ⟨a0, fun ht => a8 (p8 hwf ht), fun hin => by rw [a6, p6]; exact hin⟩
          · refine ⟨?_, fun ht => ?_, fun hin => ?_⟩
            · unfold GbnWf at a0 ⊢
              exact a0
            · exact a8 (p8 hwf ht)
            · rw [a6, p6]; exact hin

theorem gbnReach_wf {hw : Bool} {s : Gbn} (hr : GbnReach hw s) : GbnWf s := by
  induction hr with
  | create cfg => exact gbn_create_wf cfg
  | send s data e fuel _ ih => exact (gbn_send_pres hw s data e fuel ih).1
  | recv s cap e fuel _ ih => exact (gbn_recv_pres hw s cap e fuel ih).1

theorem gbnReach_no_latch {hw : Bool} {s : Gbn} (hr : GbnReach hw s) :
    s.have_in = false := by
  have : GbnWf s ∧ s.have_in = false := by
    induction hr with
    | create cfg =>
      exact ⟨gbn_create_wf cfg, rfl⟩
    | send s data e fuel _ ih =>
      obtain ⟨g0, _, _, _, g6, _, _⟩ := gbn_send_pres hw s data e fuel ih.1
      exact ⟨g0, g6.trans ih.2⟩
    | recv s cap e fuel _ ih =>
      obtain ⟨g0, _, g2⟩ := gbn_recv_pres hw s cap e fuel ih.1
      exact ⟨g0, g2 ih.2⟩
  exact this.2

theorem gbnReachPos_inv {hw : Bool} {s : Gbn} (hr : GbnReachPos hw s) :
    GbnWf s ∧ GbnTimerInv s := by
  induction hr with
  | create cfg =>
    exact ⟨gbn_create_wf cfg, gbn_create_timer cfg⟩
  | send s data e fuel hne _ ih =>
    obtain ⟨g0, _, _, _, _, _, g8⟩ := gbn_send_pres hw s data e fuel ih.1
    exact ⟨g0, g8 ih.2 hne⟩
  | recv s cap e fuel _ ih =>
    obtain ⟨g0, g1, _⟩ := gbn_recv_pres hw s cap e fuel ih.1
    exact ⟨g0, g1 ih.2⟩

/-- The latch-free direct path of the GBN `bb_proto_recv`: the body of
`src/bb_gbn.c` lines 163-207 with the `have_in` delivery branch (lines
158-162) removed, so every delivered payload comes from the frame parsed
during this very call. -/
def gbn_recv_direct (hw : Bool) (s : Gbn) (cap : Nat) (e : Env) (fuel : Nat) :
    Int × List Nat × Gbn × Env :=
  let pre := gbnRtoCheck hw s e fuel
  let s1 := pre.1
  let rr := envRecv pre.2
  let rn := rr.1.1
  if rn ≤ 0 then
    if rn = 0 then
      let post := gbnRtoCheck hw s1 rr.2 fuel
      (rn, [], post.1, post.2)
    else (rn, [], s1, rr.2)
  else
    match bb_wire_parse hw rr.1.2 with
    | none => (0, [], s1, rr.2)
    | some (h, pl) =>
      let ah := gbnAckHandle s1 h.ack rr.2
      let s2 := ah.1
      if h.flags &&& BB_FLAG_DATA = 0 then (0, [], s2, ah.2)
      else if seq_cmp h.seq s2.rcv_nxt ≠ 0 then
        (0, [], s2, send_ack hw s2.rcv_nxt ah.2)
      else
        let L := min h.len cap
        let s3 := { s2 with rcv_nxt := bb_next_seq s2.rcv_nxt }
        ((L : Int), pl.take L, s3, send_ack hw s3.rcv_nxt ah.2)

theorem gbn_recv_eq_direct (hw : Bool) (s : Gbn) (cap : Nat) (e : Env)
    (fuel : Nat) (hin : s.have_in = false) :
    gbn_proto_recv hw s cap e fuel = gbn_recv_direct hw s cap e fuel := by
  rw [gbn_proto_recv, gbn_recv_direct, hin]
  simp

/-- **C9.** After `bb_proto_gbn_create` the GBN single-slot delivery latch
is never populated: `have_in` is `false` in every state reachable through
the public operations, so the latch-delivery branch at the top of
`bb_proto_recv` never executes, and every recv call coincides with the
latch-free direct path, whose delivered payload is copied from the frame
parsed during that same call. -/
theorem c9_latch_never_populated (hw : Bool) (s : Gbn) (cap : Nat) (e : Env)
    (fuel : Nat) (hr : GbnReach hw s) :
    s.have_in = false ∧
      gbn_proto_recv hw s cap e fuel = gbn_recv_direct hw s cap e fuel := by
  have hin := gbnReach_no_latch hr
  exact ⟨hin, gbn_recv_eq_direct hw s cap e fuel hin⟩

theorem c9_latch_never_populated_witness :
    GbnReach false (bb_proto_gbn_create ⟨0, 4, 1, 1⟩) ∧
      ((bb_proto_gbn_create ⟨0, 4, 1, 1⟩).have_in = false ∧
        gbn_proto_recv false (bb_proto_gbn_create ⟨0, 4, 1, 1⟩) 8 Env0 2 =
          gbn_recv_direct false (bb_proto_gbn_create ⟨0, 4, 1, 1⟩) 8 Env0 2) :=
  ⟨GbnReach.create _,
    c9_latch_never_populated false _ 8 Env0 2 (GbnReach.create _)⟩

/-- A pure-ACK frame acknowledging sequence 5 (Fletcher backend). -/
def c5frame : List Nat := (bb_wire_pack 64 false BB_FLAG_ACK 0 5 []).getD []

/-- A GBN state with window `[5, 6)`, an armed timer with a far deadline,
and a one-byte snapshot. -/
def c5state : Gbn :=
  ⟨⟨0, 8, 100, 1⟩, 5, 6, 0, 999999999999, true, [65], false, []⟩

/-- An oracle whose single receive hands over the duplicate ACK. -/
def c5env : Env := ⟨[], [], [Sum.inr c5frame], []⟩

/-- A `bb_proto_recv` call that parses a frame whose ack equals `snd_una`
(signed comparison zero, hence non-positive) does not leave the timer
state unchanged: the window edges stay put but the timer is re-armed, so
its deadline moves. -/
theorem c5_dup_ack_rearms_timer :
    (bb_wire_parse false c5frame).isSome = true ∧
    (readHdr c5frame).ack = c5state.snd_una ∧
    seq_cmp (readHdr c5frame).ack c5state.snd_una ≤ 0 ∧
    (gbn_proto_recv false c5state 8 c5env 4).2.2.1.snd_una = c5state.snd_una ∧
    (gbn_proto_recv false c5state 8 c5env 4).2.2.1.snd_nxt = c5state.snd_nxt ∧
    (gbn_proto_recv false c5state 8 c5env 4).2.2.1.timer_ts ≠ c5state.timer_ts := by
  decide

/-- **C5.** The ACK-handling step of the GBN `bb_proto_recv` ignores an ack
only when the signed comparison against `snd_una` is strictly negative:
then the state and the oracle are both untouched.  An ack exactly equal to
`snd_una` (signed comparison zero) is accepted instead: it leaves
`snd_una` and `snd_nxt` unchanged but re-arms the retransmission timer,
moving its deadline to now + rto. -/
theorem c5_stale_ack (s : Gbn) (ackv : Nat) (e : Env) :
    (seq_cmp ackv s.snd_una < 0 → gbnAckHandle s ackv e = (s, e)) ∧
    (ackv = s.snd_una → seq_cmp ackv s.snd_nxt ≤ 0 → seq_cmp ackv s.snd_nxt ≠ 0 →
      (gbnAckHandle s ackv e).1.snd_una = s.snd_una ∧
      (gbnAckHandle s ackv e).1.snd_nxt = s.snd_nxt ∧
      (gbnAckHandle s ackv e).1.timer_running = true ∧
      (gbnAckHandle s ackv e).1.timer_ts = (envNow e).1 + s.cfg.rto_ms * 1000000) := by
  constructor
  · intro hneg
    have hrej : ¬(0 ≤ seq_cmp ackv s.snd_una ∧ seq_cmp ackv s.snd_nxt ≤ 0) :=
      fun hacc => by omega
    rw [gbnAckHandle, if_neg hrej]
  · intro heq hle hne
    have hself : seq_cmp ackv s.snd_una = 0 := by
      rw [heq, seq_cmp, udiff_self]
      rfl
    rw [gbnAckHandle, if_pos ⟨by omega, hle⟩, if_neg hne]
    exact ⟨heq, rfl, rfl, rfl⟩

theorem c5_stale_ack_witness :
    (seq_cmp 4 c5state.snd_una < 0 ∧
      gbnAckHandle c5state 4 Env0 = (c5state, Env0)) ∧
    ((gbnAckHandle c5state 5 Env0).1.snd_una = c5state.snd_una ∧
      (gbnAckHandle c5state 5 Env0).1.snd_nxt = c5state.snd_nxt ∧
      (gbnAckHandle c5state 5 Env0).1.timer_running = true ∧
      (gbnAckHandle c5state 5 Env0).1.timer_ts =
        (envNow Env0).1 + c5state.cfg.rto_ms * 1000000) :=
  ⟨⟨by decide, (c5_stale_ack c5state 4 Env0).1 (by decide)⟩,
    (c5_stale_ack c5state 5 Env0).2 (by decide) (by decide) (by decide)⟩

/-- A freshly created GBN engine (window 4, mss 4, rto 1 ms). -/
def c4s1 : Gbn := bb_proto_gbn_create ⟨0, 4, 4, 1⟩

/-- After sending one byte: window `[0, 1)`, timer armed. -/
def c4s2 : Gbn := (gbn_proto_send false c4s1 [65] Env0 2).2.1

/-- After a zero-length send: the retransmission snapshot is replaced by
an empty one while the window still holds sequence 0. -/
def c4s3 : Gbn := (gbn_proto_send false c4s2 [] Env0 2).2.1

/-- A clock oracle whose reading lies past the timer deadline. -/
def c4env : Env := ⟨[5000000], [], [], []⟩

/-- After a recv that fires the RTO: `retransmit_window_from_snapshot`
sees the empty snapshot and disarms the timer with the window nonempty. -/
def c4s4 : Gbn := (gbn_proto_recv false c4s3 8 c4env 4).2.2.1

/-- A state reachable through create/send/send/recv in which one sequence
is outstanding (`snd_una < snd_nxt` by signed comparison) yet the
retransmission timer is not armed: the zero-length send emptied the
snapshot, and the next RTO expiry disarmed the timer without emptying the
window. -/
theorem c4_zero_send_disarms :
    GbnReach false c4s4 ∧
      0 < seq_cmp c4s4.snd_nxt c4s4.snd_una ∧
      c4s4.timer_running = false :=
  ⟨GbnReach.recv _ _ _ _
      (GbnReach.send _ _ _ _ (GbnReach.send _ _ _ _ (GbnReach.create _))),
    by decide, by decide⟩

/-- **C4.** When every `bb_proto_send` call carries a nonempty payload,
the GBN timer invariant holds in every reachable state: the single
retransmission timer is armed exactly when `snd_nxt − snd_una ≠ 0` in
32-bit arithmetic, and (whenever the configured window is below 2^31, so
the unsigned difference is also signed-positive) exactly when
`snd_una < snd_nxt` by signed comparison. -/
theorem c4_timer_armed_iff (hw : Bool) (s : Gbn) (hr : GbnReachPos hw s) :
    (s.timer_running = true ↔ udiff s.snd_nxt s.snd_una ≠ 0) ∧
    (s.cfg.wnd < 2147483648 →
      (s.timer_running = true ↔ 0 < seq_cmp s.snd_nxt s.snd_una)) := by
  obtain ⟨hwf, ht⟩ := gbnReachPos_inv hr
  refine ⟨ht.1, fun hwnd => ?_⟩
  rw [ht.1, seq_cmp, toSigned_pos_iff (udiff_lt _ _)]
  have hb := hwf.2.2.1
  omega

theorem c4_timer_armed_iff_witness :
    GbnReachPos false (bb_proto_gbn_create ⟨0, 4, 4, 1⟩) ∧
      (bb_proto_gbn_create ⟨0, 4, 4, 1⟩).cfg.wnd < 2147483648 ∧
      ((bb_proto_gbn_create ⟨0, 4, 4, 1⟩).timer_running = true ↔
        udiff (bb_proto_gbn_create ⟨0, 4, 4, 1⟩).snd_nxt
          (bb_proto_gbn_create ⟨0, 4, 4, 1⟩).snd_una ≠ 0) ∧
      ((bb_proto_gbn_create ⟨0, 4, 4, 1⟩).timer_running = true ↔
        0 < seq_cmp (bb_proto_gbn_create ⟨0, 4, 4, 1⟩).snd_nxt
          (bb_proto_gbn_create ⟨0, 4, 4, 1⟩).snd_una) :=
  ⟨GbnReachPos.create _, by decide,
    (c4_timer_armed_iff false _ (GbnReachPos.create _)).1,
    (c4_timer_armed_iff false _ (GbnReachPos.create _)).2 (by decide)⟩

theorem toSigned_of_lt {u : Nat} (h : u < 2147483648) : toSigned u = u := by
  simp only [toSigned]
  rw [if_pos h]

theorem send_frame_byte (st : Gbn) (seq : Nat) :
    send_frame false st seq [7] Env0 =
      (0, if st.timer_running = true then st else start_timer st 0,
        { nows := [], sendResults := [], recvResults := [],
          sent := [packedFrame false BB_FLAG_DATA seq st.rcv_nxt [7]] }) := by
  rw [send_frame,
    show ([7] : List Nat).take (([7] : List Nat).length % U16) = [7] from rfl,
    bb_wire_pack_eq 1500 false BB_FLAG_DATA seq st.rcv_nxt [7] (by norm_num [HDR_SIZE])]
  by_cases hst : st.timer_running = true
  · simp [envSend, Env0, envNow, hst]
  · simp [envSend, Env0, envNow, hst]

theorem ite_start_timer_fields (c : Prop) [Decidable c] (st : Gbn) (now : Nat) :
    (if c then st else start_timer st now).snd_una = st.snd_una ∧
    (if c then st else start_timer st now).snd_nxt = st.snd_nxt ∧
    (if c then st else start_timer st now).rcv_nxt = st.rcv_nxt ∧
    (if c then st else start_timer st now).cfg = st.cfg := by
  split <;> exact ⟨rfl, rfl, rfl, rfl⟩

theorem gbn_send_byte_step (s : Gbn) (hu : s.snd_una = 0)
    (hc : s.cfg.wnd = 4294967295) (hm : s.cfg.mss = 1)
    (hn : s.snd_nxt < 2147483648) :
    (gbn_proto_send false s [7] Env0 2).2.1.snd_una = 0 ∧
    (gbn_proto_send false s [7] Env0 2).2.1.snd_nxt = s.snd_nxt + 1 ∧
    (gbn_proto_send false s [7] Env0 2).2.1.cfg = s.cfg := by
  have key : gbn_proto_send false s [7] Env0 2 =
      gbnSendLoop false [7] (1 + 1) { s with outbuf := ([7] : List Nat) } 0 Env0 := rfl
  have hwnd : ¬ (({ s with outbuf := ([7] : List Nat) } : Gbn).cfg.wnd ≤
      udiff ({ s with outbuf := ([7] : List Nat) } : Gbn).snd_nxt
        ({ s with outbuf := ([7] : List Nat) } : Gbn).snd_una) := by
    show ¬ (s.cfg.wnd ≤ udiff s.snd_nxt s.snd_una)
    rw [hc, hu]
    simp only [udiff, U32]
    omega
  rw [key, gbnSendLoop, if_pos (show (0 : Nat) < ([7] : List Nat).length by decide),
    if_neg hwnd,
    show min (([7] : List Nat).length - 0)
        ({ s with outbuf := ([7] : List Nat) } : Gbn).cfg.mss = min 1 s.cfg.mss from rfl,
    hm, Nat.min_self]
  dsimp only
  rw [show (([7] : List Nat).drop 0).take 1 = [7] from rfl, send_frame_byte]
  dsimp only
  rw [if_neg (show ¬ ((0 : Int) < 0) by decide)]
  obtain ⟨f1, f2, f3, f4⟩ := ite_start_timer_fields
    (({ s with outbuf := ([7] : List Nat) } : Gbn).timer_running = true)
    { s with outbuf := ([7] : List Nat) } 0
  refine ⟨?_, ?_, ?_⟩
  · exact f1.trans hu
  · show bb_next_seq (if ({ s with outbuf := ([7] : List Nat) } : Gbn).timer_running = true
        then ({ s with outbuf := ([7] : List Nat) } : Gbn)
        else start_timer { s with outbuf := ([7] : List Nat) } 0).snd_nxt = s.snd_nxt + 1
    rw [f2]
    show bb_next_seq s.snd_nxt = s.snd_nxt + 1
    simp only [bb_next_seq, U32]
    omega
  · exact f4

/-- Iterated one-byte GBN sends against the unclamped window 4294967295
(`mss = 1`, fresh oracle each call). -/
def gbnBig : Nat → Gbn
  | 0 => bb_proto_gbn_create ⟨0, 4294967295, 1, 1⟩
  | n + 1 => (gbn_proto_send false (gbnBig n) [7] Env0 2).2.1

theorem gbnBig_reach (n : Nat) : GbnReach false (gbnBig n) := by
  induction n with
  | zero => exact GbnReach.create _
  | succ n ih => exact GbnReach.send _ _ _ _ ih

theorem gbnBig_inv (n : Nat) (h : n ≤ 2147483648) :
    (gbnBig n).snd_una = 0 ∧ (gbnBig n).snd_nxt = n ∧
      (gbnBig n).cfg.wnd = 4294967295 ∧ (gbnBig n).cfg.mss = 1 := by
  induction n with
  | zero => refine ⟨rfl, rfl, by decide, rfl⟩
  | succ n ih =>
    obtain ⟨i1, i2, i3, i4⟩ := ih (by omega)
    have hn : (gbnBig n).snd_nxt < 2147483648 := by omega
    obtain ⟨g1, g2, g3⟩ := gbn_send_byte_step (gbnBig n) i1 i3 i4 hn
    refine ⟨g1, ?_, ?_, ?_⟩
    · show (gbn_proto_send false (gbnBig n) [7] Env0 2).2.1.snd_nxt = n + 1
      omega
    · rw [show (gbnBig (n + 1)).cfg = (gbn_proto_send false (gbnBig n) [7] Env0 2).2.1.cfg
        from rfl, g3]
      exact i3
    · rw [show (gbnBig (n + 1)).cfg = (gbn_proto_send false (gbnBig n) [7] Env0 2).2.1.cfg
        from rfl, g3]
      exact i4

/-- A reachable GBN state (window configured as 4294967295, 2^31 one-byte
sends) in which the signed interpretation of `snd_nxt − snd_una` is
−2^31 < 0: the window invariant fails because `bb_proto_gbn_create` never
clamps `cfg.wnd`. -/
theorem c3_gbn_overflow :
    GbnReach false (gbnBig 2147483648) ∧
      seq_cmp (gbnBig 2147483648).snd_nxt (gbnBig 2147483648).snd_una < 0 := by
  obtain ⟨h1, h2, _, _⟩ := gbnBig_inv 2147483648 le_rfl
  refine ⟨gbnBig_reach _, ?_⟩
  rw [h1, h2]
  decide

/-! ## The Selective-Repeat engine (`src/bb_sr.c`) -/

/-- One sender slot: payload buffer, per-packet timer (`bb_timer_t`:
deadline plus armed bit), and the in-use flag.  `buf = []` models a freed
buffer. -/
structure TxSlot where
  buf : List Nat
  deadline : Nat
  armed : Bool
  inuse : Bool
deriving DecidableEq

/-- One receiver slot: buffered out-of-order payload and the present
flag. -/
structure RxSlot where
  buf : List Nat
  present : Bool
deriving DecidableEq

/-- `sr_t`: configuration, window edges, and the fixed 256-slot tx/rx
tables (`BB_MAX_WND`), zero-initialised by `calloc`. -/
structure Sr where
  cfg : ProtoCfg
  snd_una : Nat
  snd_nxt : Nat
  rcv_nxt : Nat
  tx : List TxSlot
  rx : List RxSlot
deriving DecidableEq

/-- `wrap_idx`: circular slot index within the window. -/
def wrap_idx (x wnd : Nat) : Nat := if wnd = 0 then 0 else x % wnd

/-- `bb_proto_sr_create`: clamp the window into `[1, 256]`, apply the
`mss`/`rto` defaults, and start all edges at `init_seq` with empty slot
tables. -/
def bb_proto_sr_create (cfg : ProtoCfg) : Sr :=
  let c0 : ProtoCfg :=
    ⟨cfg.init_seq % U32, cfg.wnd % U32, cfg.mss % U32, cfg.rto_ms % U32⟩
  let c1 := { c0 with wnd := if c0.wnd = 0 then 32 else c0.wnd }
  let c2 := { c1 with wnd := if 256 < c1.wnd then 256 else c1.wnd }
  let c := { c2 with mss := if c2.mss = 0 then 512 else c2.mss,
                     rto_ms := if c2.rto_ms = 0 then 120 else c2.rto_ms }
  { cfg := c, snd_una := c.init_seq, snd_nxt := c.init_seq,
    rcv_nxt := c.init_seq,
    tx := List.replicate 256 ⟨[], 0, false, false⟩,
    rx := List.replicate 256 ⟨[], false⟩ }

/-- `send_frame` (SR): pack a DATA frame into the 1600-byte stack buffer
(length truncated to `uint16_t`) and hand it to the channel. -/
def sr_send_frame (hw : Bool) (s : Sr) (seq : Nat) (p : List Nat) (e : Env) :
    Int × Env :=
  match bb_wire_pack 1600 hw BB_FLAG_DATA seq s.rcv_nxt (p.take (p.length % U16)) with
  | none => (-1, e)
  | some frame =>
    let r := envSend e frame
    if r.1 < 0 then (-1, r.2) else (0, r.2)

/-- The body of one `consume_ack_any` iteration on the tx table: if the
slot at `wrap_idx(snd_una)` is in use, free its buffer and disarm its
timer. -/
def srFreeSlot (s : Sr) : List TxSlot :=
  let i := wrap_idx s.snd_una s.cfg.wnd
  let slot := s.tx.getD i ⟨[], 0, false, false⟩
  if slot.inuse then s.tx.set i ⟨[], slot.deadline, false, false⟩ else s.tx

/-- The sliding loop of `consume_ack_any`: while `snd_una` compares
signed-below the ack, free the slot at `wrap_idx(snd_una)` (disarming its
timer) and advance `snd_una`.  The loop body runs `udiff ack snd_una`
times at most, so that fuel is exact. -/
def srConsumeLoop : Nat → Sr → Nat → Sr
  | 0, s, _ => s
  | fuel + 1, s, ackv =>
    if seq_cmp s.snd_una ackv < 0 then
      srConsumeLoop fuel
        { s with tx := srFreeSlot s, snd_una := bb_next_seq s.snd_una } ackv
    else s

/-- `consume_ack_any`: accept a cumulative ack in `[snd_una, snd_nxt]`
(signed), then slide the window up to it. -/
def consume_ack_any (s : Sr) (ackv : Nat) : Sr :=
  if 0 ≤ seq_cmp ackv s.snd_una ∧ seq_cmp ackv s.snd_nxt ≤ 0 then
    srConsumeLoop (udiff ackv s.snd_una) s ackv
  else s

/-- The per-packet retransmission pass of the SR `bb_proto_send`: for each
`q` in `[snd_una, snd_nxt)` (fuel bounds the walk), resend the slot whose
armed timer has expired and re-arm it.  `bb_timer_expired` reads the
clock only when the timer is armed. -/
def srRetransLoop (hw : Bool) : Nat → Sr → Nat → Env → Sr × Env
  | 0, s, _, e => (s, e)
  | fuel + 1, s, q, e =>
    if 0 < seq_cmp s.snd_nxt q then
      let i := wrap_idx q s.cfg.wnd
      let slot := s.tx.getD i ⟨[], 0, false, false⟩
      if slot.inuse then
        if slot.armed then
          let n := envNow e
          if slot.deadline ≤ n.1 then
            let r := sr_send_frame hw s q slot.buf n.2
            let n2 := envNow r.2
            let s1 := { s with
              tx := s.tx.set i ⟨slot.buf, n2.1 + s.cfg.rto_ms * 1000000, true, true⟩ }
            srRetransLoop hw fuel s1 (bb_next_seq q) n2.2
          else srRetransLoop hw fuel s (bb_next_seq q) n.2
        else srRetransLoop hw fuel s (bb_next_seq q) e
      else srRetransLoop hw fuel s (bb_next_seq q) e
    else (s, e)

/-- The ack poll appearing in both loops of the SR `bb_proto_send`: on a
positive receive that parses, consume the header's cumulative ack. -/
def srPollAck (hw : Bool) (s : Sr) (rn : Int) (buf : List Nat) : Sr :=
  if 0 < rn then
    match bb_wire_parse hw buf with
    | none => s
    | some (h, _) => consume_ack_any s h.ack
  else s

/-- One poll-and-retransmit pass of the SR `bb_proto_send` loops: receive
once from the channel, consume any ack, then walk the in-flight window
retransmitting expired slots. -/
def srStep (hw : Bool) (s : Sr) (e : Env) : Sr × Env :=
  let rr := envRecv e
  let s0 := srPollAck hw s rr.1.1 rr.1.2
  srRetransLoop hw (udiff s0.snd_nxt s0.snd_una) s0 s0.snd_una rr.2

/-- The chunk transmission of the SR `bb_proto_send`: send the chunk at
`snd_nxt`, store it in its slot (freeing any stale occupant), arm the
per-packet timer, and advance `snd_nxt`. -/
def srStoreSend (hw : Bool) (s1 : Sr) (p : List Nat) (e : Env) :
    Int × Sr × Env :=
  let r := sr_send_frame hw s1 s1.snd_nxt p e
  if r.1 < 0 then (-1, s1, r.2)
  else
    let i := wrap_idx s1.snd_nxt s1.cfg.wnd
    let n := envNow r.2
    (0, { s1 with
        tx := s1.tx.set i ⟨p, n.1 + s1.cfg.rto_ms * 1000000, true, true⟩,
        snd_nxt := bb_next_seq s1.snd_nxt }, n.2)

/-- The drain phase of the SR `bb_proto_send`: while the window is
nonempty, poll for acks (blocking with the rto as timeout), consume them,
and retransmit expired slots. -/
def srDrainLoop (hw : Bool) : Nat → Sr → Env → Int × Sr × Env
  | 0, s, e => (0, s, e)
  | fuel + 1, s, e =>
    if seq_cmp s.snd_una s.snd_nxt < 0 then
      let st := srStep hw s e
      srDrainLoop hw fuel st.1 st.2
    else (0, s, e)

/-- The fragmentation loop of the SR `bb_proto_send`: while bytes remain,
poll nonblockingly for acks, retransmit expired slots, back off when the
window is full, otherwise send the next chunk (at most `mss` bytes),
store it in its slot, arm the per-packet timer, and advance `snd_nxt`.
When the payload is exhausted the drain phase runs. -/
def srSendLoop (hw : Bool) (data : List Nat) : Nat → Sr → Nat → Env → Int × Sr × Env
  | 0, s, _, e => (0, s, e)
  | fuel + 1, s, off, e =>
    if off < data.length then
      let st := srStep hw s e
      let s1 := st.1
      if s1.cfg.wnd ≤ udiff s1.snd_nxt s1.snd_una then
        srSendLoop hw data fuel s1 off st.2
      else
        let chunk := min (data.length - off) s1.cfg.mss
        let r := srStoreSend hw s1 ((data.drop off).take chunk) st.2
        if r.1 < 0 then (-1, r.2.1, r.2.2)
        else srSendLoop hw data fuel r.2.1 (off + chunk) r.2.2
    else srDrainLoop hw fuel s e

/-- The SR `bb_proto_send`. -/
def sr_proto_send (hw : Bool) (s : Sr) (data : List Nat) (e : Env)
    (fuel : Nat) : Int × Sr × Env :=
  srSendLoop hw data fuel s 0 e

/-- The consecutive-segment drain of the SR `bb_proto_recv`
(`src/bb_sr.c` lines 239-242): while the slot at `wrap_idx(rcv_nxt)` is
present, free it and advance `rcv_nxt` — the buffered payload is freed
without being delivered.  At most `wnd` slots can be present, so
`wnd + 1` fuel completes the loop. -/
def srRxDrain : Nat → Sr → Sr
  | 0, s => s
  | fuel + 1, s =>
    let j := wrap_idx s.rcv_nxt s.cfg.wnd
    if (s.rx.getD j ⟨[], false⟩).present then
      srRxDrain fuel
        { s with rx := s.rx.set j ⟨[], false⟩, rcv_nxt := bb_next_seq s.rcv_nxt }
    else s

/-- The SR `bb_proto_recv`: poll the channel, parse, consume the
piggybacked ack, drop DATA outside `[rcv_nxt, rcv_nxt + wnd)` (ACKing),
buffer in-window DATA, deliver the head-of-line segment truncated to
`cap`, run the consecutive drain, and ACK `rcv_nxt`. -/
def sr_proto_recv (hw : Bool) (s : Sr) (cap : Nat) (e : Env) :
    Int × List Nat × Sr × Env :=
  let rr := envRecv e
  let rn := rr.1.1
  if rn ≤ 0 then (rn, [], s, rr.2)
  else
    match bb_wire_parse hw rr.1.2 with
    | none => (0, [], s, rr.2)
    | some (h, pl) =>
      let s0 := consume_ack_any s h.ack
      if h.flags &&& BB_FLAG_DATA = 0 then (0, [], s0, rr.2)
      else if 0 ≤ seq_cmp h.seq ((s0.rcv_nxt + s0.cfg.wnd) % U32) then
        (0, [], s0, send_ack hw s0.rcv_nxt rr.2)
      else if seq_cmp h.seq s0.rcv_nxt < 0 then
        (0, [], s0, send_ack hw s0.rcv_nxt rr.2)
      else
        let i := wrap_idx h.seq s0.cfg.wnd
        let s1 := if (s0.rx.getD i ⟨[], false⟩).present then s0
          else { s0 with rx := s0.rx.set i ⟨pl.take h.len, true⟩ }
        if h.seq = s1.rcv_nxt then
          let slot := s1.rx.getD i ⟨[], false⟩
          let n := min slot.buf.length cap
          let s2 := { s1 with rx := s1.rx.set i ⟨[], false⟩,
                              rcv_nxt := bb_next_seq s1.rcv_nxt }
          let s3 := srRxDrain (s2.cfg.wnd + 1) s2
          ((n : Int), slot.buf.take n, s3, send_ack hw s3.rcv_nxt rr.2)
        else (0, [], s1, send_ack hw s1.rcv_nxt rr.2)

/-- States of an SR engine reachable through the public operations. -/
inductive SrReach (hw : Bool) : Sr → Prop where
  | create (cfg : ProtoCfg) : SrReach hw (bb_proto_sr_create cfg)
  | send (s : Sr) (data : List Nat) (e : Env) (fuel : Nat) :
      SrReach hw s → SrReach hw (sr_proto_send hw s data e fuel).2.1
  | recv (s : Sr) (cap : Nat) (e : Env) :
      SrReach hw s → SrReach hw (sr_proto_recv hw s cap e).2.2.1

/-- Sliding the window start forward by `t ≤ udiff nxt una` shrinks the
unsigned window width by exactly `t`. -/
theorem udiff_add_le {una nxt : Nat} (h1 : una < U32) (h2 : nxt < U32)
    (t : Nat) (ht : t ≤ udiff nxt una) :
    udiff nxt ((una + t) % U32) = udiff nxt una - t := by
  simp only [udiff, U32] at *
  omega

/-- Well-formedness of an SR engine: 32-bit window edges, window width at
most the configured (clamped) window. -/
def SrWf (s : Sr) : Prop :=
  s.snd_una < U32 ∧ s.snd_nxt < U32 ∧
    udiff s.snd_nxt s.snd_una ≤ s.cfg.wnd ∧ s.cfg.wnd ≤ 256

theorem SrWf_of_fields {a b : Sr} (h1 : a.snd_una = b.snd_una)
    (h2 : a.snd_nxt = b.snd_nxt) (h3 : a.cfg = b.cfg) (hwf : SrWf b) :
    SrWf a := by
  unfold SrWf at *
  rw [h1, h2, h3]
  exact hwf

theorem sr_create_wf (cfg : ProtoCfg) : SrWf (bb_proto_sr_create cfg) := by
  refine ⟨?_, ?_, ?_, ?_⟩ <;>
    simp only [bb_proto_sr_create, udiff_self]
  · exact Nat.mod_lt _ (by norm_num [U32])
  · exact Nat.mod_lt _ (by norm_num [U32])
  · exact Nat.zero_le _
  · split <;> split <;> omega

/-- An ack accepted into `[snd_una, snd_nxt]` lies at unsigned distance
from `snd_una` no greater than the window width. -/
theorem ack_path_le {una nxt ackv : Nat} (h1 : una < U32) (h2 : nxt < U32)
    (h3 : ackv < U32) (hge : 0 ≤ seq_cmp ackv una) (hle : seq_cmp ackv nxt ≤ 0) :
    udiff ackv una ≤ udiff nxt una := by
  rw [seq_cmp, toSigned_nonneg_iff (udiff_lt ackv una)] at hge
  rw [seq_cmp, toSigned_nonpos_iff (udiff_lt ackv nxt)] at hle
  simp only [udiff, U32] at *
  omega

theorem srConsumeLoop_path : ∀ (fuel : Nat) (s : Sr) (ackv : Nat),
    s.snd_una < U32 →
    (srConsumeLoop fuel s ackv).snd_nxt = s.snd_nxt ∧
    (srConsumeLoop fuel s ackv).cfg = s.cfg ∧
    (srConsumeLoop fuel s ackv).rcv_nxt = s.rcv_nxt ∧
    (srConsumeLoop fuel s ackv).rx = s.rx ∧
    ∃ t, t ≤ udiff ackv s.snd_una ∧
      (srConsumeLoop fuel s ackv).snd_una = (s.snd_una + t) % U32
  | 0, s, ackv, hu => by
    refine ⟨rfl, rfl, rfl, rfl, 0, Nat.zero_le _, ?_⟩
    show s.snd_una = (s.snd_una + 0) % U32
    rw [Nat.add_zero, Nat.mod_eq_of_lt hu]
  | fuel + 1, s, ackv, hu => by
    rw [srConsumeLoop]
    split
    · rename_i hg
      rw [seq_cmp, toSigned_neg_iff (udiff_lt _ _)] at hg
      obtain ⟨p1, p2, p3, p4, t', ht', hta⟩ :=
        srConsumeLoop_path fuel
          { s with tx := srFreeSlot s, snd_una := bb_next_seq s.snd_una } ackv
          (Nat.mod_lt _ (by norm_num [U32]))
      refine ⟨p1, p2, p3, p4, t' + 1, ?_, ?_⟩
      · have ht'2 : t' ≤ udiff ackv (bb_next_seq s.snd_una) := ht'
        have hstep : udiff ackv (bb_next_seq s.snd_una) = udiff ackv s.snd_una - 1 ∧
            0 < udiff ackv s.snd_una := by
          simp only [udiff, bb_next_seq, U32] at *
          omega
        omega
      · have hta2 : (srConsumeLoop fuel
            { s with tx := srFreeSlot s, snd_una := bb_next_seq s.snd_una } ackv).snd_una
            = ((bb_next_seq s.snd_una) + t') % U32 := hta
        rw [hta2]
        simp only [bb_next_seq, U32]
        omega
    · refine ⟨rfl, rfl, rfl, rfl, 0, Nat.zero_le _, ?_⟩
      rw [Nat.add_zero, Nat.mod_eq_of_lt hu]

theorem consume_ack_spec (s : Sr) (ackv : Nat) (ha : ackv < U32)
    (hwf : SrWf s) :
    SrWf (consume_ack_any s ackv) ∧
    (consume_ack_any s ackv).snd_nxt = s.snd_nxt ∧
    (consume_ack_any s ackv).cfg = s.cfg ∧
    (consume_ack_any s ackv).rcv_nxt = s.rcv_nxt ∧
    (consume_ack_any s ackv).rx = s.rx := by
  rw [consume_ack_any]
  split
  · rename_i hacc
    obtain ⟨p1, p2, p3, p4, t, ht, hta⟩ :=
      srConsumeLoop_path (udiff ackv s.snd_una) s ackv hwf.1
    have hle : udiff ackv s.snd_una ≤ udiff s.snd_nxt s.snd_una :=
      ack_path_le hwf.1 hwf.2.1 ha hacc.1 hacc.2
    have htw : t ≤ udiff s.snd_nxt s.snd_una := le_trans ht hle
    refine ⟨⟨?_, ?_, ?_, ?_⟩, p1, p2, p3, p4⟩
    · rw [hta]
      exact Nat.mod_lt _ (by norm_num [U32])
    · rw [p1]
      exact hwf.2.1
    · rw [p1, hta, udiff_add_le hwf.1 hwf.2.1 t htw, p2]
      have := hwf.2.2.1
      omega
    · rw [p2]
      exact hwf.2.2.2
  · exact ⟨hwf, rfl, rfl, rfl, rfl⟩

theorem srRetransLoop_fields (hw : Bool) : ∀ (fuel : Nat) (s : Sr) (q : Nat) (e : Env),
    (srRetransLoop hw fuel s q e).1.snd_una = s.snd_una ∧
    (srRetransLoop hw fuel s q e).1.snd_nxt = s.snd_nxt ∧
    (srRetransLoop hw fuel s q e).1.cfg = s.cfg ∧
    (srRetransLoop hw fuel s q e).1.rcv_nxt = s.rcv_nxt ∧
    (srRetransLoop hw fuel s q e).1.rx = s.rx
  | 0, s, q, e => ⟨rfl, rfl, rfl, rfl, rfl⟩
  | fuel + 1, s, q, e => by
    rw [srRetransLoop]
    split
    · dsimp only
      split
      · split
        · split
          · exact srRetransLoop_fields hw fuel _ _ _
          · exact srRetransLoop_fields hw fuel _ _ _
        · exact srRetransLoop_fields hw fuel _ _ _
      · exact srRetransLoop_fields hw fuel _ _ _
    · exact ⟨rfl, rfl, rfl, rfl, rfl⟩

theorem srPollAck_wf (hw : Bool) (s : Sr) (rn : Int) (buf : List Nat)
    (hwf : SrWf s) : SrWf (srPollAck hw s rn buf) := by
  rw [srPollAck]
  split
  · split
    · exact hwf
    · rename_i h pl hp
      obtain ⟨_, hackb, _, _⟩ := parse_some_hdr hp
      exact (consume_ack_spec s h.ack hackb hwf).1
  · exact hwf

theorem srStep_wf (hw : Bool) (s : Sr) (e : Env) (hwf : SrWf s) :
    SrWf (srStep hw s e).1 := by
  rw [srStep]
  have h0 := srPollAck_wf hw s (envRecv e).1.1 (envRecv e).1.2 hwf
  obtain ⟨f1, f2, f3, _, _⟩ := srRetransLoop_fields hw
    (udiff (srPollAck hw s (envRecv e).1.1 (envRecv e).1.2).snd_nxt
      (srPollAck hw s (envRecv e).1.1 (envRecv e).1.2).snd_una)
    (srPollAck hw s (envRecv e).1.1 (envRecv e).1.2)
    (srPollAck hw s (envRecv e).1.1 (envRecv e).1.2).snd_una (envRecv e).2
  exact SrWf_of_fields f1 f2 f3 h0

theorem srStoreSend_wf (hw : Bool) (s1 : Sr) (p : List Nat) (e : Env)
    (hwf : SrWf s1) (hroom : udiff s1.snd_nxt s1.snd_una < s1.cfg.wnd) :
    SrWf (srStoreSend hw s1 p e).2.1 := by
  rw [srStoreSend]
  dsimp only
  split
  · exact hwf
  · refine ⟨hwf.1, Nat.mod_lt _ (by norm_num [U32]), ?_, hwf.2.2.2⟩
    show udiff (bb_next_seq s1.snd_nxt) s1.snd_una ≤ s1.cfg.wnd
    have hwb := hwf.2.2.2
    rw [udiff_next hwf.2.1 hwf.1 (by simp only [U32]; omega)]
    omega

theorem srDrainLoop_wf (hw : Bool) : ∀ (fuel : Nat) (s : Sr) (e : Env),
    SrWf s → SrWf (srDrainLoop hw fuel s e).2.1
  | 0, s, e, hwf => hwf
  | fuel + 1, s, e, hwf => by
    rw [srDrainLoop]
    split
    · exact srDrainLoop_wf hw fuel _ _ (srStep_wf hw s e hwf)
    · exact hwf

theorem srSendLoop_wf (hw : Bool) (data : List Nat) :
    ∀ (fuel : Nat) (s : Sr) (off : Nat) (e : Env),
    SrWf s → SrWf (srSendLoop hw data fuel s off e).2.1
  | 0, s, off, e, hwf => hwf
  | fuel + 1, s, off, e, hwf => by
    rw [srSendLoop]
    split
    · dsimp only
      have h1 := srStep_wf hw s e hwf
      split
      · exact srSendLoop_wf hw data fuel _ _ _ h1
      · rename_i hroom
        split
        · exact srStoreSend_wf hw (srStep hw s e).1 _ (srStep hw s e).2 h1 (by omega)
        · exact srSendLoop_wf hw data fuel _ _ _
            (srStoreSend_wf hw (srStep hw s e).1 _ (srStep hw s e).2 h1 (by omega))
    · exact srDrainLoop_wf hw fuel s e hwf

theorem srRxDrain_fields : ∀ (fuel : Nat) (s : Sr),
    (srRxDrain fuel s).snd_una = s.snd_una ∧
    (srRxDrain fuel s).snd_nxt = s.snd_nxt ∧
    (srRxDrain fuel s).cfg = s.cfg
  | 0, s => ⟨rfl, rfl, rfl⟩
  | fuel + 1, s => by
    rw [srRxDrain]
    split
    · exact srRxDrain_fields fuel _
    · exact ⟨rfl, rfl, rfl⟩

theorem sr_recv_wf (hw : Bool) (s : Sr) (cap : Nat) (e : Env)
    (hwf : SrWf s) : SrWf (sr_proto_recv hw s cap e).2.2.1 := by
  rw [sr_proto_recv]
  split
  · exact hwf
  · split
    · exact hwf
    · rename_i h pl hp
      obtain ⟨_, hackb, _, _⟩ := parse_some_hdr hp
      have h0 := (consume_ack_spec s h.ack hackb hwf).1
      split
      · exact h0
      · dsimp only
        split
        · exact h0
        · split
          · exact h0
          · split
            · split
              · exact SrWf_of_fields (srRxDrain_fields _ _).1
                  (srRxDrain_fields _ _).2.1 (srRxDrain_fields _ _).2.2 h0
              · exact h0
            · split
              · exact SrWf_of_fields (srRxDrain_fields _ _).1
                  (srRxDrain_fields _ _).2.1 (srRxDrain_fields _ _).2.2 h0
              · exact h0

theorem srReach_wf {hw : Bool} {s : Sr} (hr : SrReach hw s) : SrWf s := by
  induction hr with
  | create cfg => exact sr_create_wf cfg
  | send s data e fuel _ ih => exact srSendLoop_wf hw data fuel s 0 e ih
  | recv s cap e _ ih => exact sr_recv_wf hw s cap e ih

/-- **C3.** The signed window invariant `0 ≤ snd_nxt − snd_una ≤ wnd`
holds in every reachable SR state unconditionally (SR clamps the window
to at most 256 at creation), and in every reachable GBN state whose
configured window is below 2^31 (GBN never clamps `cfg.wnd`; with a
window of 2^31 or more the signed difference can overflow, see the
counterexample). -/
theorem c3_window_invariant (hw : Bool) :
    (∀ s : Gbn, GbnReach hw s → s.cfg.wnd < 2147483648 →
      0 ≤ seq_cmp s.snd_nxt s.snd_una ∧
        seq_cmp s.snd_nxt s.snd_una ≤ (s.cfg.wnd : ℤ)) ∧
    (∀ s : Sr, SrReach hw s →
      0 ≤ seq_cmp s.snd_nxt s.snd_una ∧
        seq_cmp s.snd_nxt s.snd_una ≤ (s.cfg.wnd : ℤ)) := by
  constructor
  · intro s hr hwnd
    have hwf := gbnReach_wf hr
    have hub := hwf.2.2.1
    have hlt : udiff s.snd_nxt s.snd_una < 2147483648 := by omega
    rw [seq_cmp, toSigned_of_lt hlt]
    exact ⟨Int.ofNat_nonneg _, by exact_mod_cast hub⟩
  · intro s hr
    have hwf := srReach_wf hr
    have hub := hwf.2.2.1
    have hwb := hwf.2.2.2
    have hlt : udiff s.snd_nxt s.snd_una < 2147483648 := by omega
    rw [seq_cmp, toSigned_of_lt hlt]
    exact ⟨Int.ofNat_nonneg _, by exact_mod_cast hub⟩

theorem c3_window_invariant_witness :
    (GbnReach false (bb_proto_gbn_create ⟨0, 4, 4, 1⟩) ∧
      (bb_proto_gbn_create ⟨0, 4, 4, 1⟩).cfg.wnd < 2147483648 ∧
      0 ≤ seq_cmp (bb_proto_gbn_create ⟨0, 4, 4, 1⟩).snd_nxt
        (bb_proto_gbn_create ⟨0, 4, 4, 1⟩).snd_una ∧
      seq_cmp (bb_proto_gbn_create ⟨0, 4, 4, 1⟩).snd_nxt
        (bb_proto_gbn_create ⟨0, 4, 4, 1⟩).snd_una ≤
          ((bb_proto_gbn_create ⟨0, 4, 4, 1⟩).cfg.wnd : ℤ)) ∧
    (SrReach false (bb_proto_sr_create ⟨0, 4, 4, 1⟩) ∧
      0 ≤ seq_cmp (bb_proto_sr_create ⟨0, 4, 4, 1⟩).snd_nxt
        (bb_proto_sr_create ⟨0, 4, 4, 1⟩).snd_una ∧
      seq_cmp (bb_proto_sr_create ⟨0, 4, 4, 1⟩).snd_nxt
        (bb_proto_sr_create ⟨0, 4, 4, 1⟩).snd_una ≤
          ((bb_proto_sr_create ⟨0, 4, 4, 1⟩).cfg.wnd : ℤ)) :=
  ⟨⟨GbnReach.create _, by decide,
      (c3_window_invariant false).1 _ (GbnReach.create _) (by decide)⟩,
    ⟨SrReach.create _, (c3_window_invariant false).2 _ (SrReach.create _)⟩⟩

/-- A fresh SR receiver: `init_seq = 1`, window 4, mss 1. -/
def c1recv0 : Sr := bb_proto_sr_create ⟨1, 4, 1, 1⟩

/-- The DATA frame for byte `X` (88) at sequence 2, ack 1 — exactly what
the SR sender emits as its second fragment. -/
def c1fX : List Nat := (bb_wire_pack 1600 false BB_FLAG_DATA 2 1 [88]).getD []

/-- The DATA frame for byte `W` (87) at sequence 1, ack 1 — the sender's
first fragment. -/
def c1fW : List Nat := (bb_wire_pack 1600 false BB_FLAG_DATA 1 1 [87]).getD []

/-- First delivery to the receiver: the reordered frame `X` (sequence 2)
arrives first. -/
def c1env1 : Env := ⟨[], [], [Sum.inr c1fX], []⟩

def c1r1 : Int × List Nat × Sr × Env := sr_proto_recv false c1recv0 100 c1env1

/-- Second delivery: frame `W` (sequence 1) arrives. -/
def c1env2 : Env := ⟨[], [], [Sum.inr c1fW], []⟩

def c1r2 : Int × List Nat × Sr × Env := sr_proto_recv false c1r1.2.2.1 100 c1env2

/-- Third delivery: the channel retransmits frame `X`. -/
def c1env3 : Env := ⟨[], [], [Sum.inr c1fX], []⟩

def c1r3 : Int × List Nat × Sr × Env := sr_proto_recv false c1r2.2.2.1 100 c1env3

set_option maxRecDepth 100000 in
/-- **C1.** (violated by `src/bb_sr.c`)  An SR sender given the
application bytes `[87, 88]` ("WX") emits exactly the two DATA frames
`c1fW`, `c1fX`.  When the channel reorders them, the receiving engine
delivers `[]` for the first call and `[87]` for the second — the drain
loop of `bb_proto_recv` (`src/bb_sr.c` lines 239-242) frees the buffered
sequence-2 segment without copying it out, yet advances `rcv_nxt` to 3 —
and a subsequent retransmission of the lost frame is dropped as a
duplicate (`seq < rcv_nxt`) with no delivery.  The application boundary
therefore receives `[87]` instead of `[87, 88]`: delivered bytes are not
the sent bytes, contradicting the order-preserving no-loss stream
property. -/
theorem c1_sr_reorder_loses_data :
    (sr_proto_send false (bb_proto_sr_create ⟨1, 4, 1, 1⟩) [87, 88] Env0 3).2.2.sent
        = [c1fW, c1fX] ∧
    SrReach false c1recv0 ∧
    c1r1.2.1 = [] ∧
    c1r2.2.1 = [87] ∧
    c1r2.2.2.1.rcv_nxt = 3 ∧
    c1r2.2.2.1.rx = List.replicate 256 ⟨[], false⟩ ∧
    c1r3.2.1 = [] ∧
    c1r3.2.2.1.rcv_nxt = 3 :=
  ⟨by decide, SrReach.create _, by decide, by decide, by decide, by decide,
    by decide, by decide⟩

end ByteBistro
